import Mathlib

set_option maxHeartbeats 1000000
set_option linter.dupNamespace false

/-!
Shallow embedding of the kong schema compiler (`src/build.go`).

The Go source compiles an annotated struct into a command tree.  The parts of
the repository that `build.go` consumes but that live in other files (tag
parsing, the mapper registry, `camelCase`, `Tag.Vars.CloneWith`, regexes in
`ignoreFields`, reflection itself) are modelled as follows:

* tag parsing (`parseTag`) is an external collaborator per the spec; schemas
  carry already-resolved `Tag` records, so the flattener has no tag error path;
* the mapper registry is modelled as two per-field oracles, `valueMapper`
  (`registry.ForValue(fv) != nil`) and `namedMapper`
  (`registry.ForNamedValue(tag.Type, fv) != nil`);
* `ignoreFields` regexes are modelled as string predicates;
* Go reflection values are modelled by the `GoStruct`/`GoField`/`FShape`
  syntax tree below; a pointer field carries its pointee (doubling as the
  element-type skeleton used by `reflect.New`) plus a presence bit;
* `Value.Target`, `Value.DefaultValue`, `Value.Mapper`, the `Value.Flag` and
  `Node.Parent` back references are omitted: they are reflection handles or
  cyclic back edges that no claim observes;
* Go's potentially non-terminating recursion is driven by a fuel parameter;
  running out of fuel is the distinguished error `KErr.outOfFuel`.
-/

namespace Kong

/-- Resolved per-field tag metadata (the external Tag Resolver's output).
Field names follow `Tag` in the Go source; `Dflt` is Go's `Default`, `Pfx` is
Go's `Prefix`, `EnvPfx` is Go's `EnvPrefix`, `TypeName` is Go's `Type`. -/
structure Tag where
  Name : String
  Help : String
  TypeName : String
  Dflt : String
  Ignored : Bool
  Cmd : Bool
  Embed : Bool
  Arg : Bool
  Required : Bool
  Optional : Bool
  Short : Char
  Pfx : String
  EnvPfx : String
  Env : String
  Vars : List (String × String)
  Group : String
  Aliases : List String
  Hidden : Bool
  PlaceHolder : String
  Enum : String
  Passthrough : Bool
  Format : String
  Xor : List String
  deriving Repr, DecidableEq

/-- Go's zero rune, used by `tag.Short != 0`. -/
def noShort : Char := Char.ofNat 0

/-- Mirror of `newEmptyTag()`. -/
def newEmptyTag : Tag where
  Name := ""
  Help := ""
  TypeName := ""
  Dflt := ""
  Ignored := false
  Cmd := false
  Embed := false
  Arg := false
  Required := false
  Optional := false
  Short := noShort
  Pfx := ""
  EnvPfx := ""
  Env := ""
  Vars := []
  Group := ""
  Aliases := []
  Hidden := false
  PlaceHolder := ""
  Enum := ""
  Passthrough := false
  Format := ""
  Xor := []

/-- A presentation group (`Group` in the Go model). -/
structure Group where
  Key : String
  Title : String
  deriving Repr, DecidableEq

/-- A bindable datum (flag value or positional).  `Position` is only
meaningful for positionals. -/
structure Value where
  Name : String
  Help : String
  Dflt : String
  Required : Bool
  Position : Nat
  Enum : String
  Passthrough : Bool
  Format : String
  Tag : Tag
  deriving Repr, DecidableEq

/-- A flag: a `Value` plus flag-only metadata. -/
structure Flag where
  Value : Value
  Short : Char
  PlaceHolder : String
  Env : String
  Group : Option Group
  Xor : List String
  Hidden : Bool
  deriving Repr, DecidableEq

/-- Structural compilation errors of `build.go` (each constructor records the
owning struct type name and field name where the Go code calls `failField`). -/
inductive KErr where
  | outOfFuel
  | expectedPtrToStruct (tdesc : String)
  | unsupportedType (tname fname : String)
  | duplicateFlag (tname fname flagName : String)
  | duplicateShort (tname fname : String) (short : Char)
  | requiredAfterOptional (argName : String)
  | branchNoPositional (tname fname branchName : String)
  | branchNameMismatch (tname fname childName : String)
  | multipleDefaults (tname fname : String)
  | defaultWithArgs (tname fname : String)
  | mixedChild (tname fname : String)
  | mixedRoot (tname : String)
  deriving Repr, DecidableEq

/-- `NodeType` from the Go source. -/
inductive NodeType where
  | ApplicationNode
  | CommandNode
  | ArgumentNode
  deriving Repr, DecidableEq

/-- The non-recursive attributes of a `Node`. -/
structure NodeData where
  NType : NodeType
  Name : String := ""
  Help : String := ""
  Detail : String := ""
  Hidden : Bool := false
  Tag : Tag := newEmptyTag
  Group : Option Group := none
  Aliases : List String := []
  Flags : List Flag := []
  Positional : List Value := []
  Argument : Option Value := none

/-- A compiled tree node.  `DefaultCmd` duplicates the designated child (the
Go code stores a pointer into `Children`). -/
inductive Node where
  | mk (data : NodeData) (Children : List Node) (DefaultCmd : Option Node)

def Node.data : Node → NodeData
  | .mk d _ _ => d

def Node.Children : Node → List Node
  | .mk _ c _ => c

def Node.DefaultCmd : Node → Option Node
  | .mk _ _ dc => dc

def Node.mapData (f : NodeData → NodeData) : Node → Node
  | .mk d c dc => .mk (f d) c dc

def Node.Flags (n : Node) : List Flag := n.data.Flags

def Node.Positional (n : Node) : List Value := n.data.Positional

def Node.Name (n : Node) : String := n.data.Name

def Node.Help (n : Node) : String := n.data.Help

def Node.Detail (n : Node) : String := n.data.Detail

def Node.Hidden (n : Node) : Bool := n.data.Hidden

def Node.Group (n : Node) : Option Group := n.data.Group

def Node.Aliases (n : Node) : List String := n.data.Aliases

def Node.Argument (n : Node) : Option Value := n.data.Argument

def Node.Tag (n : Node) : Tag := n.data.Tag

def Node.NType (n : Node) : NodeType := n.data.NType

def Node.addFlag (n : Node) (f : Flag) : Node :=
  n.mapData fun d => { d with Flags := d.Flags ++ [f] }

def Node.addPositional (n : Node) (v : Value) : Node :=
  n.mapData fun d => { d with Positional := d.Positional ++ [v] }

def Node.withPositional (n : Node) (ps : List Value) : Node :=
  n.mapData fun d => { d with Positional := ps }

def Node.withFlags (n : Node) (fs : List Flag) : Node :=
  n.mapData fun d => { d with Flags := fs }

def Node.setName (n : Node) (s : String) : Node :=
  n.mapData fun d => { d with Name := s }

def Node.setTag (n : Node) (t : Kong.Tag) : Node :=
  n.mapData fun d => { d with Tag := t }

def Node.setHelp (n : Node) (s : String) : Node :=
  n.mapData fun d => { d with Help := s }

def Node.setDetail (n : Node) (s : String) : Node :=
  n.mapData fun d => { d with Detail := s }

def Node.setHidden (n : Node) (b : Bool) : Node :=
  n.mapData fun d => { d with Hidden := b }

def Node.setGroup (n : Node) (g : Option Kong.Group) : Node :=
  n.mapData fun d => { d with Group := g }

def Node.setAliases (n : Node) (a : List String) : Node :=
  n.mapData fun d => { d with Aliases := a }

def Node.setArgument (n : Node) (a : Option Value) : Node :=
  n.mapData fun d => { d with Argument := a }

def Node.addChild : Node → Node → Node
  | .mk d c dc, child => .mk d (c ++ [child]) dc

def Node.setDefaultCmd : Node → Option Node → Node
  | .mk d c _, dc => .mk d c dc

instance : Inhabited Node := ⟨.mk { NType := .CommandNode } [] none⟩

/-- The compiled application object (`Application` in Go). -/
structure Application where
  Node : Node
  Tag : Tag

mutual
/-- The schema syntax tree standing in for Go reflection values.  A
`GoStruct` is a struct value: its type name, the optional result of a
`HelpProvider` implementation on its pointer type, and its fields. -/
inductive GoStruct where
  | mk (tname : String) (helpText : Option String) (fields : List GoField)
/-- A `GoField` carries the field identifier, `reflect.StructField.Anonymous`,
`reflect.Value.CanSet`, the two mapper-registry oracles for this field's
value, the resolved tag, and the field's storage shape. -/
inductive GoField where
  | mk (fname : String) (anonymous : Bool) (canSet : Bool)
      (valueMapper : Bool) (namedMapper : Bool) (tag : Tag) (shape : FShape)
/-- A field's storage shape.  `ptr` holds the pointee struct (whose type
skeleton stands for `ft.Type.Elem()`) and a presence bit (`false` models a
nil pointer); `iface` is an interface slot; `plugins` is the dynamic
`Plugins` list; `leaf` is any other (non-struct) storage, carrying an integer
stand-in for its contents. -/
inductive FShape where
  | leaf (val : Int)
  | strukt (s : GoStruct)
  | ptr (elem : GoStruct) (present : Bool)
  | iface (payload : Option GoStruct)
  | plugins (elems : List GoStruct)
end

def GoStruct.tname : GoStruct → String
  | .mk t _ _ => t

def GoStruct.helpText : GoStruct → Option String
  | .mk _ h _ => h

def GoStruct.fields : GoStruct → List GoField
  | .mk _ _ fs => fs

def GoField.fname : GoField → String
  | .mk n _ _ _ _ _ _ => n

def GoField.anonymous : GoField → Bool
  | .mk _ a _ _ _ _ _ => a

def GoField.canSet : GoField → Bool
  | .mk _ _ c _ _ _ _ => c

def GoField.valueMapper : GoField → Bool
  | .mk _ _ _ v _ _ _ => v

def GoField.namedMapper : GoField → Bool
  | .mk _ _ _ _ m _ _ => m

def GoField.tag : GoField → Tag
  | .mk _ _ _ _ _ t _ => t

def GoField.shape : GoField → FShape
  | .mk _ _ _ _ _ _ s => s

mutual
/-- The zero value of a struct type (`reflect.New(T).Elem()`): leaves are
zeroed, pointers and interfaces are nil, plugin lists are empty. -/
def zeroStruct : GoStruct → GoStruct
  | .mk t h fs => .mk t h (zeroFields fs)
def zeroFields : List GoField → List GoField
  | [] => []
  | f :: fs => zeroField f :: zeroFields fs
def zeroField : GoField → GoField
  | .mk n a c vm nm tag sh => .mk n a c vm nm tag (zeroShape sh)
def zeroShape : FShape → FShape
  | .leaf _ => .leaf 0
  | .strukt s => .strukt (zeroStruct s)
  | .ptr e _ => .ptr (zeroStruct e) false
  | .iface _ => .iface none
  | .plugins _ => .plugins []
end

/-- The value stored in a flattened entry: either a struct (eligible to
become a branch) or anything else. -/
inductive EntryVal where
  | scalar
  | strukt (s : GoStruct)

/-- A `flattenedField`: the field descriptor data the node builder consumes. -/
structure FlatEntry where
  fname : String
  valueMapper : Bool
  namedMapper : Bool
  tag : Tag
  value : EntryVal

/-- The compiler configuration (the parts of Go's `Kong` that `build.go`
reads): injected global flags, predeclared groups, template variables, and
the field-exclusion patterns (regexes modelled as predicates). -/
structure Kong where
  extraFlags : List Flag
  groups : List Group
  vars : List (String × String)
  ignoreFields : List (String → Bool)

/-- The root argument of `build`: either a pointer to a struct or anything
else (carrying the `%T` description Go would print). -/
inductive GoAny where
  | ptrToStruct (s : GoStruct)
  | other (tdesc : String)

/-- Membership in the shared flag-registration set `seenFlags`
(`map[string]bool` in Go; modelled as a list of keys). -/
def seenMem (seen : List String) (key : String) : Bool := seen.contains key

/-- `seenFlags[key] = true`. -/
def seenSet (seen : List String) (key : String) : List String :=
  if seen.contains key then seen else key :: seen

/-- `delete(seenFlags, key)`. -/
def seenDel (seen : List String) (key : String) : List String :=
  seen.filter fun x => decide (x ≠ key)

/-- The seeding loop in `build`: `seenFlags[flag.Name] = true` for each
injected global flag.  Note the Go code registers the bare name here, without
the `--` prefix used everywhere else. -/
def seedExtra : List Flag → List String → List String
  | [], seen => seen
  | f :: fs, seen => seedExtra fs (seenSet seen f.Value.Name)

/-- The registration keys a flag owns: `--name`, plus `-c` when a short is
set. -/
def flagKeys (f : Flag) : List String :=
  ("--" ++ f.Value.Name) :: (if f.Short ≠ noShort then ["-" ++ String.mk [f.Short]] else [])

def flagsKeys : List Flag → List String
  | [] => []
  | f :: fs => flagKeys f ++ flagsKeys fs

/-- The "unsee" loop at the end of `buildNode`. -/
def unseeFlags : List Flag → List String → List String
  | [], seen => seen
  | f :: fs, seen =>
    let seen := seenDel seen ("--" ++ f.Value.Name)
    let seen := if f.Short ≠ noShort then seenDel seen ("-" ++ String.mk [f.Short]) else seen
    unseeFlags fs seen

/-- Modelled from the spec: the repository's identifier-splitting helper
(`camelCase`, not under `src/`) whose result `dashedString` joins with
hyphens; the spec describes the composite as converting a field identifier to
lowercase hyphen-separated form.  We split the identifier before each
uppercase letter. -/
def camelAux (acc : List Char) : List Char → List (List Char)
  | [] => [acc.reverse]
  | c :: cs =>
    if c.isUpper && !acc.isEmpty then acc.reverse :: camelAux [c] cs
    else camelAux (c :: acc) cs

/-- Modelled from the spec: see `camelAux`. -/
def camelCase (s : String) : List String :=
  if s.isEmpty then [] else (camelAux [] s.toList).map String.mk

/-- Mirror of `dashedString` (its `camelCase` helper is spec-modelled). -/
def dashedString (s : String) : String :=
  String.intercalate "-" (camelCase s)

/-- Go's `strings.ToLower`, modelled characterwise over the string's char
list (the core `String.toLower` is not reducible by the kernel). -/
def lowerString (s : String) : String := .mk (s.data.map Char.toLower)

/-- Modelled from the spec: `Tag.Vars.CloneWith` (not under `src/`) merges
the child's variable bindings over the parent's as base, child entries taking
precedence. -/
def cloneWith (base child : List (String × String)) : List (String × String) :=
  child ++ base.filter fun p => !(child.any fun q => q.1 == p.1)

/-- Variable lookup in a binding list (first match wins). -/
def lookupVar (vs : List (String × String)) (key : String) : Option String :=
  (vs.find? fun p => p.1 == key).map fun p => p.2

/-- The tag-composition loop body of `flattenedFields` (lines 93-103 of
`build.go`): group inherited if unset, prefixes prepended, vars merged. -/
def composeTag (parent child : Tag) : Tag :=
  { child with
    Group := if child.Group = "" then parent.Group else child.Group
    Pfx := parent.Pfx ++ child.Pfx
    EnvPfx := parent.EnvPfx ++ child.EnvPfx
    Vars := cloneWith parent.Vars child.Vars }

def composeEntry (parent : Tag) (e : FlatEntry) : FlatEntry :=
  { e with tag := composeTag parent e.tag }

/-- The hydration step (lines 64-68 of `build.go`): a `cmd`/`embed` pointer
field is unconditionally re-pointed at a freshly allocated zero value. -/
def hydrateShape (tag : Tag) : FShape → FShape
  | .ptr elem pres =>
    if tag.Cmd || tag.Embed then .ptr (zeroStruct elem) true else .ptr elem pres
  | s => s

/-- The value a flattened entry records for a (possibly hydrated) field. -/
def entryValOf (tag : Tag) : FShape → EntryVal
  | .strukt s => .strukt s
  | .ptr elem _ => if tag.Cmd || tag.Embed then .strukt elem else .scalar
  | _ => .scalar

/-- The `Plugins` iteration inside `flattenedFields`, with `ff` the recursive
reference. -/
def flattenPluginsA (ff : GoStruct → Except KErr (List FlatEntry × GoStruct)) :
    List GoStruct → Except KErr (List FlatEntry × List GoStruct)
  | [] => .ok ([], [])
  | s :: ss =>
    match ff s with
    | .error e => .error e
    | .ok (es, s2) =>
      match flattenPluginsA ff ss with
      | .error e => .error e
      | .ok (more, ss2) => .ok (es ++ more, s2 :: ss2)

/-- One iteration of the field loop of `flattenedFields`: drop ignored
fields, hydrate `cmd`/`embed` pointers, emit settable non-embedded fields as
leaf entries, and recurse (via `ff`) into embedded values, composing tags.
The Go code would panic on an embedded nil interface, nil pointer or
non-struct; those cases are modelled as contributing no entries. -/
def flattenOneA (ff : GoStruct → Except KErr (List FlatEntry × GoStruct))
    (f : GoField) : Except KErr (List FlatEntry × GoField) :=
  match f with
  | .mk fname anonymous canSet vm nm tag shape0 =>
    if tag.Ignored then .ok ([], .mk fname anonymous canSet vm nm tag shape0) else
    let shape := hydrateShape tag shape0
    if !anonymous && !tag.Embed then
      .ok (if canSet then [⟨fname, vm, nm, tag, entryValOf tag shape⟩] else [],
        .mk fname anonymous canSet vm nm tag shape)
    else
      match shape with
      | .iface none => .ok ([], .mk fname anonymous canSet vm nm tag (.iface none))
      | .iface (some p) =>
        match ff p with
        | .error e => .error e
        | .ok (es, p2) =>
          .ok (es.map (composeEntry tag), .mk fname anonymous canSet vm nm tag (.iface (some p2)))
      | .plugins elems =>
        match flattenPluginsA ff elems with
        | .error e => .error e
        | .ok (es, elems2) =>
          .ok (es, .mk fname anonymous canSet vm nm tag (.plugins elems2))
      | .strukt s =>
        match ff s with
        | .error e => .error e
        | .ok (es, s2) =>
          .ok (es.map (composeEntry tag), .mk fname anonymous canSet vm nm tag (.strukt s2))
      | .ptr elem pres =>
        if pres then
          match ff elem with
          | .error e => .error e
          | .ok (es, e2) =>
            .ok (es.map (composeEntry tag), .mk fname anonymous canSet vm nm tag (.ptr e2 true))
        else .ok ([], .mk fname anonymous canSet vm nm tag (.ptr elem pres))
      | .leaf v => .ok ([], .mk fname anonymous canSet vm nm tag (.leaf v))

/-- The field loop of `flattenedFields` over a field list. -/
def flattenFieldListA (ff : GoStruct → Except KErr (List FlatEntry × GoStruct)) :
    List GoField → Except KErr (List FlatEntry × List GoField)
  | [] => .ok ([], [])
  | f :: fs =>
    match flattenOneA ff f with
    | .error e => .error e
    | .ok (es, f2) =>
      match flattenFieldListA ff fs with
      | .error e => .error e
      | .ok (more, fs2) => .ok (es ++ more, f2 :: fs2)

/-- Mirror of `flattenedFields`, fuelled.  Besides the entry list it returns
the updated struct, making the in-place hydration writes observable. -/
def flattenedFields : Nat → GoStruct → Except KErr (List FlatEntry × GoStruct)
  | 0, _ => .error .outOfFuel
  | fuel + 1, .mk t h fs =>
    match flattenFieldListA (flattenedFields fuel) fs with
    | .error e => .error e
    | .ok (es, fs2) => .ok (es, .mk t h fs2)

/-- Mirror of `buildGroupForKey`. -/
def buildGroupForKey (k : Kong) (key : String) : Option Group :=
  if key = "" then none
  else
    match k.groups.find? fun g => g.Key == key with
    | some g => some g
    | none => some { Key := key, Title := key }

/-- The positional scan at the end of `buildNode` (lines 167-176): walking in
order with `last` initialized to `true`, a required positional after an
optional one is an error; otherwise each positional receives its index. -/
def checkPositionals (i : Nat) (last : Bool) : List Value → Except KErr (List Value)
  | [] => .ok []
  | p :: ps =>
    if !last && p.Required then .error (.requiredAfterOptional p.Name)
    else
      match checkPositionals (i + 1) p.Required ps with
      | .error e => .error e
      | .ok rest => .ok ({ p with Position := i } :: rest)

/-- Mirror of `buildField`. -/
def buildField (k : Kong) (node : Node) (tname : String) (e : FlatEntry)
    (tag : Tag) (name : String) (seen : List String) :
    Except KErr (Node × List String) :=
  if !e.namedMapper then .error (.unsupportedType tname e.fname) else
  let value : Value :=
    { Name := name
      Help := tag.Help
      Dflt := tag.Dflt
      Required := (!tag.Arg && tag.Required) || (tag.Arg && !tag.Optional)
      Position := 0
      Enum := tag.Enum
      Passthrough := tag.Passthrough
      Format := tag.Format
      Tag := tag }
  if tag.Arg then .ok (node.addPositional value, seen)
  else if seenMem seen ("--" ++ value.Name) then
    .error (.duplicateFlag tname e.fname value.Name)
  else
    let seen := seenSet seen ("--" ++ value.Name)
    let finish : List String → Except KErr (Node × List String) := fun seen =>
      let flag : Flag :=
        { Value := value
          Short := tag.Short
          PlaceHolder := tag.PlaceHolder
          Env := tag.Env
          Group := buildGroupForKey k tag.Group
          Xor := tag.Xor
          Hidden := tag.Hidden }
      .ok (node.addFlag flag, seen)
    if tag.Short ≠ noShort then
      if seenMem seen ("-" ++ String.mk [tag.Short]) then
        .error (.duplicateShort tname e.fname tag.Short)
      else finish (seenSet seen ("-" ++ String.mk [tag.Short]))
    else finish seen

/-- The tail of `buildChild`: append the child and re-check the
children/positionals exclusivity of the appended child. -/
def buildChildFinish (tname fname : String) (node child : Node)
    (seen : List String) : Except KErr (Node × List String) :=
  let node := node.addChild child
  if !child.Positional.isEmpty && !child.Children.isEmpty then
    .error (.mixedChild tname fname)
  else .ok (node, seen)

/-- The child decoration block of `buildChild` (lines 186-196 of `build.go`):
name, tag, help, hidden, group, aliases from the field's tag, and the
`HelpProvider` detail text when the struct exposes one. -/
def decorateChild (k : Kong) (tag : Tag) (name : String) (s : GoStruct)
    (child : Node) : Node :=
  let child := ((((((child.setName name).setTag tag).setHelp tag.Help).setHidden
    tag.Hidden).setGroup (buildGroupForKey k tag.Group)).setAliases tag.Aliases)
  match s.helpText with
  | some d => child.setDetail d
  | none => child

/-- Mirror of `buildChild`, with `bn` the recursive `buildNode` reference.
`s` is the field's struct value, `tname`/`fname` locate the field for error
reporting. -/
def buildChildA (bn : GoStruct → NodeType → List String → Except KErr (Node × List String))
    (k : Kong) (node : Node) (typ : NodeType) (tname : String) (s : GoStruct)
    (fname : String) (tag : Tag) (name : String) (seen : List String) :
    Except KErr (Node × List String) :=
  match bn s typ seen with
  | .error e => .error e
  | .ok (child, seen) =>
    let child := decorateChild k tag name s child
    if tag.Arg then
      match child.Positional with
      | [] => .error (.branchNoPositional tname fname name)
      | p :: ps =>
        if p.Name ≠ name then .error (.branchNameMismatch tname fname child.Name)
        else
          let child := (child.setArgument (some p)).withPositional ps
          let child := if child.Help = "" then child.setHelp p.Help else child
          buildChildFinish tname fname node child seen
    else if tag.Dflt ≠ "" then
      if node.DefaultCmd.isSome then .error (.multipleDefaults tname fname)
      else if tag.Dflt ≠ "withargs" && (!child.Children.isEmpty || !child.Positional.isEmpty) then
        .error (.defaultWithArgs tname fname)
      else buildChildFinish tname fname (node.setDefaultCmd (some child)) child seen
    else buildChildFinish tname fname node child seen

/-- The per-entry loop of `buildNode` (lines 123-157): skip excluded fields,
compute the public name and environment name, then classify as branch or
leaf. -/
def buildEntriesA (bn : GoStruct → NodeType → List String → Except KErr (Node × List String))
    (k : Kong) (tname : String) :
    List FlatEntry → Node → List String → Except KErr (Node × List String)
  | [], node, seen => .ok (node, seen)
  | e :: rest, node, seen =>
    if k.ignoreFields.any fun r => r (tname ++ "." ++ e.fname) then
      buildEntriesA bn k tname rest node seen
    else
      let name :=
        if e.tag.Name = "" then e.tag.Pfx ++ lowerString (dashedString e.fname)
        else e.tag.Pfx ++ e.tag.Name
      let tag := { e.tag with Env := e.tag.EnvPfx ++ e.tag.Env }
      let step :=
        match e.value with
        | .strukt s =>
          if (tag.Cmd || tag.Arg) && !e.valueMapper then
            let typ := if tag.Arg then NodeType.ArgumentNode else NodeType.CommandNode
            buildChildA bn k node typ tname s e.fname tag name seen
          else buildField k node tname e tag name seen
        | .scalar => buildField k node tname e tag name seen
      match step with
      | .error err => .error err
      | .ok (node, seen) => buildEntriesA bn k tname rest node seen

/-- Mirror of `buildNode`, fuelled. -/
def buildNode (k : Kong) : Nat → GoStruct → NodeType → List String →
    Except KErr (Node × List String)
  | 0, _, _, _ => .error .outOfFuel
  | fuel + 1, v, typ, seen =>
    let node : Node := .mk { NType := typ } [] none
    match flattenedFields fuel v with
    | .error e => .error e
    | .ok (entries, _) =>
      match buildEntriesA (buildNode k fuel) k v.tname entries node seen with
      | .error e => .error e
      | .ok (node, seen) =>
        let seen := unseeFlags node.Flags seen
        match checkPositionals 0 true node.Positional with
        | .error e => .error e
        | .ok ps => .ok (node.withPositional ps, seen)

/-- Mirror of `build`: validate the root, seed the registration set from the
injected global flags (with their bare names, as the Go code does), build the
root node, reject a root mixing positionals and children, and prepend the
injected flags. -/
def build (fuel : Nat) (k : Kong) (ast : GoAny) : Except KErr Application :=
  match ast with
  | .other tdesc => .error (.expectedPtrToStruct tdesc)
  | .ptrToStruct iv =>
    let extraFlags := k.extraFlags
    let seen := seedExtra extraFlags []
    match buildNode k fuel iv .ApplicationNode seen with
    | .error e => .error e
    | .ok (node, _) =>
      if !node.Positional.isEmpty && !node.Children.isEmpty then
        .error (.mixedRoot iv.tname)
      else
        .ok { Node := node.withFlags (extraFlags ++ node.Flags)
              Tag := { newEmptyTag with Vars := k.vars } }


mutual
/-- The children/positionals exclusivity invariant over a whole subtree
(`len(children) > 0` implies `len(positionals) == 0`, at every node). -/
def Node.exclAll : Node → Bool
  | .mk d cs _ => (d.Positional.isEmpty || cs.isEmpty) && exclAllList cs
def exclAllList : List Node → Bool
  | [] => true
  | n :: ns => Node.exclAll n && exclAllList ns
end

/-! Projection helpers used to state concrete observations about results. -/

def entriesOf {α β : Type} (r : Except KErr (α × β)) : Except KErr α :=
  r.map Prod.fst

def resultNode : Except KErr (Node × List String) → Option Node
  | .ok (n, _) => some n
  | .error _ => none

def resultSeen : Except KErr (Node × List String) → Option (List String)
  | .ok (_, sn) => some sn
  | .error _ => none

def appNode : Except KErr Application → Option Node
  | .ok a => some a.Node
  | .error _ => none

def isOkB {α : Type} : Except KErr α → Bool
  | .ok _ => true
  | .error _ => false

def flagNames (n : Node) : List String :=
  n.Flags.map fun f => f.Value.Name

def childFlagNames (n : Node) (i : Nat) : Option (List String) :=
  (n.Children[i]?).map flagNames

def shapeAt (s : GoStruct) (i : Nat) : Option FShape :=
  (s.fields[i]?).map GoField.shape

def shapePtrPresent : FShape → Option Bool
  | .ptr _ p => some p
  | _ => none

def shapePtrElem : FShape → Option GoStruct
  | .ptr e _ => some e
  | _ => none

def shapeLeafVal : FShape → Option Int
  | .leaf v => some v
  | _ => none

def updatedStruct : Except KErr (List FlatEntry × GoStruct) → Option GoStruct
  | .ok (_, s) => some s
  | .error _ => none

/-- The stored leaf value of field `j` of the struct pointed to by pointer
field `i` of `s`. -/
def ptrFieldLeafVal (s : GoStruct) (i j : Nat) : Option Int :=
  (((shapeAt s i).bind shapePtrElem).bind fun e => shapeAt e j).bind shapeLeafVal

/-! Concrete schemas and configurations used by witnesses and
counterexamples. -/

/-- A compiler configuration with nothing injected. -/
def kEmpty : Kong := { extraFlags := [], groups := [], vars := [], ignoreFields := [] }

/-- A plain settable leaf field with a registered mapper. -/
def mkLeafField (fname : String) (tag : Tag) : GoField :=
  .mk fname false true false true tag (.leaf 0)

/-- A positional-argument leaf field. -/
def mkArgField (fname : String) (tag : Tag) : GoField :=
  mkLeafField fname { tag with Arg := true }

/-- A command field holding a struct value. -/
def mkCmdField (fname : String) (tag : Tag) (s : GoStruct) : GoField :=
  .mk fname false true false false { tag with Cmd := true } (.strukt s)

/-- A sub-command struct declaring one flag named `port`. -/
def exSub : GoStruct := .mk "Sub" none [mkLeafField "Port" newEmptyTag]

/-- A root whose command field precedes a flag of the same name as the
command's own flag. -/
def exLateRoot : GoStruct :=
  .mk "Root" none [mkCmdField "Sub" newEmptyTag exSub, mkLeafField "Port" newEmptyTag]

/-- An injected global flag named `flg`. -/
def exExtraFlag : Flag :=
  { Value :=
      { Name := "flg", Help := "", Dflt := "", Required := false, Position := 0
        Enum := "", Passthrough := false, Format := "", Tag := newEmptyTag }
    Short := noShort, PlaceHolder := "", Env := "", Group := none, Xor := [], Hidden := false }

def kExtra : Kong := { kEmpty with extraFlags := [exExtraFlag] }

/-- A root declaring a flag with the same name as the injected global flag. -/
def exFlgRoot : GoStruct := .mk "R" none [mkLeafField "Flg" newEmptyTag]

/-- A struct whose single leaf field stores the value 5. -/
def exStored : GoStruct := .mk "Leaf" none [.mk "V" false true false true newEmptyTag (.leaf 5)]

/-- A root with a command field whose pointer is already present and points
at `exStored`. -/
def exHyd : GoStruct :=
  .mk "H" none [.mk "C" false true false false { newEmptyTag with Cmd := true } (.ptr exStored true)]

/-- Two nested embedded structs with name prefixes `p1` (outer) and `p2`
(inner) around a flag field named `Host`. -/
def nestedEmbeds (p1 p2 : String) : GoStruct :=
  .mk "Outer" none
    [.mk "M" false true false false { newEmptyTag with Embed := true, Pfx := p1 }
      (.strukt (.mk "Mid" none
        [.mk "I" false true false false { newEmptyTag with Embed := true, Pfx := p2 }
          (.strukt (.mk "Inner" none [mkLeafField "Host" newEmptyTag]))]))]

/-- A branch child struct whose first positional shares the branch name
`thing`. -/
def exNamed : GoStruct :=
  .mk "B" none [mkArgField "Thing" newEmptyTag, mkArgField "Extra" { newEmptyTag with Optional := true }]

/-- A root with one positional-argument branch field named `Thing`. -/
def exBrRoot : GoStruct :=
  .mk "R" none [.mk "Thing" false true false false { newEmptyTag with Arg := true } (.strukt exNamed)]

/-- An empty command struct. -/
def exEmptyCmd : GoStruct := .mk "E" none []

/-- The successful result of building `exNamed` as an argument node (used to
instantiate hypotheses of per-call theorems at a concrete input). -/
def exNamedBuilt : Node × List String :=
  match buildNode kEmpty 3 exNamed .ArgumentNode [] with
  | .ok p => p
  | .error _ => (default, [])

/-- The successful result of building `exEmptyCmd` as a command node. -/
def exEmptyBuilt : Node × List String :=
  match buildNode kEmpty 3 exEmptyCmd .CommandNode [] with
  | .ok p => p
  | .error _ => (default, [])


instance : Inhabited Application := ⟨{ Node := default, Tag := newEmptyTag }⟩

/-- Extract a successful application (defaulting on error); used to name
concrete successful results in closed statements. -/
def getApp : Except KErr Application → Application
  | .ok a => a
  | .error _ => default

/-- Extract a successful node/registration-set pair (defaulting on error). -/
def getNodeSeen : Except KErr (Node × List String) → Node × List String
  | .ok p => p
  | .error _ => (default, [])

/-- A concrete flattened leaf entry with a registered mapper. -/
def exEntry : FlatEntry :=
  { fname := "Flg", valueMapper := false, namedMapper := true, tag := newEmptyTag
    value := .scalar }

/-- Extract a successful positional list (defaulting on error). -/
def getVals : Except KErr (List Value) → List Value
  | .ok vs => vs
  | .error _ => []

/-- A non-anonymous, non-embed field whose slot is not settable. -/
def exUnsettable : GoField := .mk ("Hidden") false false false true newEmptyTag (.leaf 7)

/-- Extract a successful flatten result (defaulting on error). -/
def getFlat : Except KErr (List FlatEntry × GoStruct) → List FlatEntry × GoStruct
  | .ok p => p
  | .error _ => ([], .mk ("") none [])

/-- A concrete parent tag with a group, a name prefix and one variable. -/
def exParentTag : Tag :=
  { newEmptyTag with Group := ("g"), Pfx := ("db-"), Vars := [(("a"), ("1"))] }

/-! Structural lemmas about `Node` operations. -/

@[simp] theorem Node.data_mk (d c dc) : (Node.mk d c dc).data = d := rfl

@[simp] theorem Node.Children_mk (d c dc) : (Node.mk d c dc).Children = c := rfl

@[simp] theorem Node.DefaultCmd_mk (d c dc) : (Node.mk d c dc).DefaultCmd = dc := rfl

@[simp] theorem Node.Flags_mk (d c dc) : (Node.mk d c dc).Flags = d.Flags := rfl

@[simp] theorem Node.Positional_mk (d c dc) : (Node.mk d c dc).Positional = d.Positional := rfl

@[simp] theorem Node.Name_mk (d c dc) : (Node.mk d c dc).Name = d.Name := rfl

@[simp] theorem Node.Help_mk (d c dc) : (Node.mk d c dc).Help = d.Help := rfl

@[simp] theorem Node.Detail_mk (d c dc) : (Node.mk d c dc).Detail = d.Detail := rfl

@[simp] theorem Node.Argument_mk (d c dc) : (Node.mk d c dc).Argument = d.Argument := rfl

@[simp] theorem Node.Tag_mk (d c dc) : (Node.mk d c dc).Tag = d.Tag := rfl

@[simp] theorem Node.NType_mk (d c dc) : (Node.mk d c dc).NType = d.NType := rfl

@[simp] theorem Node.mapData_mk (f d c dc) : (Node.mk d c dc).mapData f = .mk (f d) c dc := rfl

@[simp] theorem Node.addFlag_mk (d c dc f) :
    (Node.mk d c dc).addFlag f = .mk { d with Flags := d.Flags ++ [f] } c dc := rfl

@[simp] theorem Node.addPositional_mk (d c dc v) :
    (Node.mk d c dc).addPositional v = .mk { d with Positional := d.Positional ++ [v] } c dc := rfl

@[simp] theorem Node.withPositional_mk (d c dc ps) :
    (Node.mk d c dc).withPositional ps = .mk { d with Positional := ps } c dc := rfl

@[simp] theorem Node.withFlags_mk (d c dc fs) :
    (Node.mk d c dc).withFlags fs = .mk { d with Flags := fs } c dc := rfl

@[simp] theorem Node.addChild_mk (d c dc child) :
    (Node.mk d c dc).addChild child = .mk d (c ++ [child]) dc := rfl

@[simp] theorem Node.setDefaultCmd_mk (d c dc dc2) :
    (Node.mk d c dc).setDefaultCmd dc2 = .mk d c dc2 := rfl

@[simp] theorem Node.setArgument_mk (d c dc a) :
    (Node.mk d c dc).setArgument a = .mk { d with Argument := a } c dc := rfl

@[simp] theorem Node.setHelp_mk (d c dc h) :
    (Node.mk d c dc).setHelp h = .mk { d with Help := h } c dc := rfl

@[simp] theorem Node.setPositional_withPositional (n ps) :
    (Node.withPositional n ps).Flags = n.Flags := by cases n ; rfl

/-- The decoration block expressed as a single record update: it rewrites
only presentation attributes and leaves children, default command, flags,
positionals and the argument slot of the child untouched. -/
theorem decorateChild_eq (k : Kong) (tag : Tag) (name : String) (s : GoStruct) (child : Node) :
    decorateChild k tag name s child =
      .mk { child.data with
              Name := name, Tag := tag, Help := tag.Help, Hidden := tag.Hidden
              Group := buildGroupForKey k tag.Group, Aliases := tag.Aliases
              Detail := match s.helpText with
                        | some d => d
                        | none => child.data.Detail }
        child.Children child.DefaultCmd := by
  cases child
  cases hs : s.helpText <;>
    simp [decorateChild, hs, Node.setName, Node.setTag, Node.setHelp, Node.setHidden,
      Node.setGroup, Node.setAliases, Node.setDetail]

@[simp] theorem exclAllList_nil : exclAllList [] = true := rfl

@[simp] theorem exclAllList_cons (n ns) :
    exclAllList (n :: ns) = (Node.exclAll n && exclAllList ns) := rfl

theorem exclAllList_append (l1 l2 : List Node) :
    exclAllList (l1 ++ l2) = (exclAllList l1 && exclAllList l2) := by
  induction l1 with
  | nil => simp
  | cons n ns ih => simp [ih, Bool.and_assoc]

theorem Node.exclAll_mk (d c dc) :
    Node.exclAll (.mk d c dc) = ((d.Positional.isEmpty || c.isEmpty) && exclAllList c) := rfl

/-! Lemmas about the flag-registration set. -/

theorem seenMem_eq_mem (seen : List String) (key : String) :
    seenMem seen key = true ↔ key ∈ seen := by
  simp [seenMem, List.contains, List.elem_iff]

theorem seenSet_of_not_mem {seen : List String} {key : String} (h : key ∉ seen) :
    seenSet seen key = key :: seen := by
  have hc : seen.contains key = false := by
    rw [← Bool.not_eq_true]
    intro hmem
    exact h ((seenMem_eq_mem seen key).mp hmem)
  simp [seenSet, hc]
  exact h

theorem flagsKeys_append (a b : List Flag) :
    flagsKeys (a ++ b) = flagsKeys a ++ flagsKeys b := by
  induction a with
  | nil => rfl
  | cons f fs ih => simp [flagsKeys, ih]

theorem seenDel_eq_filter (seen : List String) (key : String) :
    seenDel seen key = seen.filter fun x => decide (x ≠ key) := rfl

theorem unseeFlags_eq_filter (fs : List Flag) (seen : List String) :
    unseeFlags fs seen = seen.filter fun x => decide (x ∉ flagsKeys fs) := by
  induction fs generalizing seen with
  | nil =>
    simp [unseeFlags, flagsKeys]
  | cons f fs ih =>
    by_cases hs : f.Short = noShort
    · have hstep : unseeFlags (f :: fs) seen =
          unseeFlags fs (seenDel seen ("--" ++ f.Value.Name)) := by
        simp [unseeFlags, hs]
      rw [hstep, ih, seenDel_eq_filter, List.filter_filter]
      apply List.filter_congr
      intro x _
      simp only [← Bool.decide_and]
      rw [decide_eq_decide]
      simp [flagKeys, flagsKeys, hs]
      tauto
    · have hstep : unseeFlags (f :: fs) seen =
          unseeFlags fs (seenDel (seenDel seen ("--" ++ f.Value.Name))
            ("-" ++ String.mk [f.Short])) := by
        simp [unseeFlags, hs]
      rw [hstep, ih, seenDel_eq_filter, seenDel_eq_filter, List.filter_filter,
        List.filter_filter]
      apply List.filter_congr
      intro x _
      simp only [← Bool.decide_and]
      rw [decide_eq_decide]
      simp [flagKeys, flagsKeys, hs]
      tauto


/-! Specification of `buildField`. -/

/-- On success, `buildField` never touches children or the default command;
an `arg` field appends one positional (required unless marked optional) and
leaves flags and the registration set alone; a flag field appends one flag
(optional unless marked required) after checking and registering its fresh
keys. -/
theorem buildField_spec (k : Kong) (node : Node) (tname : String) (e : FlatEntry)
    (tag : Tag) (name : String) (seen : List String) (node2 : Node) (seen2 : List String)
    (h : buildField k node tname e tag name seen = .ok (node2, seen2)) :
    node2.Children = node.Children ∧ node2.DefaultCmd = node.DefaultCmd ∧
    ((tag.Arg = true ∧ node2.Flags = node.Flags ∧ seen2 = seen ∧
        ∃ v : Value, node2.Positional = node.Positional ++ [v] ∧
          v.Name = name ∧ v.Required = !tag.Optional ∧ v.Help = tag.Help) ∨
     (tag.Arg = false ∧ node2.Positional = node.Positional ∧
        ∃ fl : Flag, node2.Flags = node.Flags ++ [fl] ∧
          fl.Value.Name = name ∧ fl.Short = tag.Short ∧
          fl.Value.Required = tag.Required ∧
          seen2 = (flagKeys fl).reverse ++ seen ∧
          (∀ x ∈ flagKeys fl, x ∉ seen) ∧ (flagKeys fl).Nodup)) := by
  by_cases hm : e.namedMapper = true
  swap
  · rw [Bool.not_eq_true] at hm
    simp [buildField, hm] at h
  cases node with
  | mk d c dc =>
    by_cases ha : tag.Arg = true
    · simp only [buildField, hm, Bool.not_true, Bool.false_eq_true, if_false, ha, if_true,
        Node.addPositional_mk, Except.ok.injEq, Prod.mk.injEq] at h
      obtain ⟨hn, hs⟩ := h
      subst hn hs
      refine ⟨rfl, rfl, Or.inl ⟨ha, rfl, rfl, ?_⟩⟩
      exact ⟨_, rfl, rfl, by simp [ha], rfl⟩
    · rw [Bool.not_eq_true] at ha
      by_cases hl : seenMem seen ("--" ++ name) = true
      · simp [buildField, hm, ha, hl] at h
      · rw [Bool.not_eq_true] at hl
        have hlm : ("--" ++ name) ∉ seen := fun hmem => by
          rw [(seenMem_eq_mem seen _).mpr hmem] at hl
          exact Bool.true_eq_false.mp hl
        by_cases hsh : tag.Short = noShort
        · simp only [buildField, hm, Bool.not_true, Bool.false_eq_true, if_false, ha,
            hl, hsh, ne_eq, not_true_eq_false, Node.addFlag_mk,
            Except.ok.injEq, Prod.mk.injEq] at h
          obtain ⟨hn, hs⟩ := h
          subst hn
          refine ⟨rfl, rfl, Or.inr ⟨ha, rfl, ?_⟩⟩
          refine ⟨_, rfl, rfl, by rw [hsh], by simp, ?_, ?_, ?_⟩
          · rw [← hs, seenSet_of_not_mem hlm]
            simp [flagKeys, hsh]
          · intro x hx
            simp [flagKeys, hsh] at hx
            subst hx
            exact hlm
          · simp [flagKeys, hsh]
        · by_cases hsm : seenMem (seenSet seen ("--" ++ name)) ("-" ++ String.mk [tag.Short]) = true
          · simp [buildField, hm, ha, hl, hsh, hsm] at h
          · rw [Bool.not_eq_true] at hsm
            have hsmem : ("-" ++ String.mk [tag.Short]) ∉ ("--" ++ name) :: seen := by
              intro hmem
              rw [← seenSet_of_not_mem hlm] at hmem
              rw [(seenMem_eq_mem _ _).mpr hmem] at hsm
              exact Bool.true_eq_false.mp hsm
            simp only [buildField, hm, Bool.not_true, Bool.false_eq_true, if_false, ha,
              hl, hsh, hsm, ne_eq, not_false_eq_true, if_true, Node.addFlag_mk,
              Except.ok.injEq, Prod.mk.injEq] at h
            obtain ⟨hn, hs⟩ := h
            subst hn
            refine ⟨rfl, rfl, Or.inr ⟨ha, rfl, ?_⟩⟩
            refine ⟨_, rfl, rfl, rfl, by simp, ?_, ?_, ?_⟩
            · rw [← hs, seenSet_of_not_mem hlm, seenSet_of_not_mem hsmem]
              simp [flagKeys, hsh]
            · intro x hx
              simp [flagKeys, hsh] at hx
              rcases hx with hx | hx
              · subst hx; exact hlm
              · subst hx
                intro hmem
                exact hsmem (List.mem_cons_of_mem _ hmem)
            · simp only [flagKeys, hsh, ne_eq, not_false_eq_true, if_true]
              rw [List.nodup_cons]
              refine ⟨?_, List.nodup_singleton _⟩
              intro hmem
              simp at hmem
              exact hsmem (by rw [hmem]; exact List.mem_cons_self _ _)

/-- `buildField` fails with the duplicate-flag error when the long key is
already registered (and the mapper lookup succeeded, which is checked
first). -/
theorem buildField_duplicate (k : Kong) (node : Node) (tname : String) (e : FlatEntry)
    (tag : Tag) (name : String) (seen : List String)
    (hm : e.namedMapper = true) (ha : tag.Arg = false)
    (hl : seenMem seen ("--" ++ name) = true) :
    buildField k node tname e tag name seen = .error (.duplicateFlag tname e.fname name) := by
  simp [buildField, hm, ha, hl]

/-! Specification of the positional scan. -/

/-- On success the scan returns the same values with positions `i, i+1, …`
assigned in order. -/
theorem checkPositionals_ok (ps : List Value) : ∀ (i : Nat) (last : Bool) (qs : List Value),
    checkPositionals i last ps = .ok qs →
    qs.length = ps.length ∧
    ∀ j : Nat, qs[j]? = (ps[j]?).map fun p => { p with Position := i + j } := by
  induction ps with
  | nil =>
    intro i last qs h
    simp only [checkPositionals, Except.ok.injEq] at h
    subst h
    simp
  | cons p ps ih =>
    intro i last qs h
    by_cases hc : (!last && p.Required) = true
    · simp [checkPositionals, hc] at h
    · rw [Bool.not_eq_true] at hc
      simp only [checkPositionals, hc, Bool.false_eq_true, if_false] at h
      cases hrec : checkPositionals (i + 1) p.Required ps with
      | error e => rw [hrec] at h; simp at h
      | ok rest =>
        rw [hrec] at h
        simp only [Except.ok.injEq] at h
        subst h
        obtain ⟨hlen, hidx⟩ := ih (i + 1) p.Required rest hrec
        refine ⟨by simp [hlen], ?_⟩
        intro j
        cases j with
        | zero => simp
        | succ j =>
          have harith : i + (j + 1) = i + 1 + j := by omega
          simp only [List.getElem?_cons_succ, hidx j, harith]

/-- The scan fails exactly when the start marker is optional and the first
value is required, or some value is required while its immediate predecessor
is optional. -/
theorem checkPositionals_error (ps : List Value) : ∀ (i : Nat) (last : Bool),
    (∃ e, checkPositionals i last ps = .error e) ↔
      ((last = false ∧ ∃ p, ps[0]? = some p ∧ p.Required = true) ∨
       (∃ j p q, ps[j]? = some p ∧ ps[j + 1]? = some q ∧
         p.Required = false ∧ q.Required = true)) := by
  induction ps with
  | nil =>
    intro i last
    simp [checkPositionals]
  | cons p ps ih =>
    intro i last
    have hunf : (∃ e, checkPositionals i last (p :: ps) = .error e) ↔
        ((!last && p.Required) = true ∨
          ∃ e, checkPositionals (i + 1) p.Required ps = .error e) := by
      by_cases hc : (!last && p.Required) = true
      · simp [checkPositionals, hc]
      · rw [Bool.not_eq_true] at hc
        simp only [checkPositionals, hc, Bool.false_eq_true, if_false, false_or]
        cases hrec : checkPositionals (i + 1) p.Required ps <;> simp
    rw [hunf, ih (i + 1) p.Required]
    constructor
    · rintro (hg | hfirst | ⟨j, a, b, hj, hj1, hopt, hreq⟩)
      · simp only [Bool.and_eq_true, Bool.not_eq_true'] at hg
        exact Or.inl ⟨hg.1, p, by simp, hg.2⟩
      · obtain ⟨hpo, q, hq, hqr⟩ := hfirst
        exact Or.inr ⟨0, p, q, by simp, by simpa using hq, hpo, hqr⟩
      · exact Or.inr ⟨j + 1, a, b, by simpa using hj, by simpa using hj1, hopt, hreq⟩
    · rintro (⟨hl, q, hq, hqr⟩ | ⟨j, a, b, hj, hj1, hopt, hreq⟩)
      · simp only [List.getElem?_cons_zero, Option.some.injEq] at hq
        subst hq
        exact Or.inl (by simp [hl, hqr])
      · cases j with
        | zero =>
          simp only [List.getElem?_cons_zero, Option.some.injEq] at hj
          subst hj
          refine Or.inr (Or.inl ⟨hopt, b, by simpa using hj1, hreq⟩)
        | succ j =>
          exact Or.inr (Or.inr ⟨j, a, b, by simpa using hj, by simpa using hj1, hopt, hreq⟩)


@[simp] theorem Node.Flags_addChild (n c) : (Node.addChild n c).Flags = n.Flags := by
  cases n ; rfl

@[simp] theorem Node.Positional_addChild (n c) : (Node.addChild n c).Positional = n.Positional := by
  cases n ; rfl

@[simp] theorem Node.Children_addChild (n c) : (Node.addChild n c).Children = n.Children ++ [c] := by
  cases n ; rfl

@[simp] theorem Node.DefaultCmd_addChild (n c) : (Node.addChild n c).DefaultCmd = n.DefaultCmd := by
  cases n ; rfl

@[simp] theorem Node.Flags_setDefaultCmd (n dc) : (Node.setDefaultCmd n dc).Flags = n.Flags := by
  cases n ; rfl

@[simp] theorem Node.Positional_setDefaultCmd (n dc) :
    (Node.setDefaultCmd n dc).Positional = n.Positional := by
  cases n ; rfl

@[simp] theorem Node.Children_setDefaultCmd (n dc) :
    (Node.setDefaultCmd n dc).Children = n.Children := by
  cases n ; rfl

@[simp] theorem Node.DefaultCmd_setDefaultCmd (n dc) :
    (Node.setDefaultCmd n dc).DefaultCmd = dc := by
  cases n ; rfl

/-- On success, `buildChildFinish` appends the child, keeps the registration
set, and certifies that the appended child does not mix positionals and
children. -/
theorem buildChildFinish_spec (tname fname : String) (node child : Node)
    (seen : List String) (node2 : Node) (seen2 : List String)
    (h : buildChildFinish tname fname node child seen = .ok (node2, seen2)) :
    node2 = node.addChild child ∧ seen2 = seen ∧
      ¬(child.Positional ≠ [] ∧ child.Children ≠ []) := by
  unfold buildChildFinish at h
  by_cases hc : (!child.Positional.isEmpty && !child.Children.isEmpty) = true
  · simp [hc] at h
  · rw [Bool.not_eq_true] at hc
    simp only [hc, Bool.false_eq_true, if_false, Except.ok.injEq, Prod.mk.injEq] at h
    obtain ⟨h1, h2⟩ := h
    refine ⟨h1.symm, h2.symm, ?_⟩
    rintro ⟨hp, hch⟩
    have hp2 : child.Positional.isEmpty = false := by
      cases hpe : child.Positional.isEmpty
      · rfl
      · exact absurd (List.isEmpty_iff.mp hpe) hp
    have hc2 : child.Children.isEmpty = false := by
      cases hce : child.Children.isEmpty
      · rfl
      · exact absurd (List.isEmpty_iff.mp hce) hch
    rw [hp2, hc2] at hc
    simp at hc

/-- On success, `buildChildA` invoked `bn` once, preserved the parent's flags
and positionals and the registration set it got back from `bn`, appended one
child whose children and flags are those `bn` produced, set the default
command either not at all or to that child, and certified the child's
exclusivity. -/
theorem buildChildA_spec (bn : GoStruct → NodeType → List String → Except KErr (Node × List String))
    (k : Kong) (node : Node) (typ : NodeType) (tname : String) (s : GoStruct)
    (fname : String) (tag : Tag) (name : String) (seen : List String)
    (node2 : Node) (seen2 : List String)
    (h : buildChildA bn k node typ tname s fname tag name seen = .ok (node2, seen2)) :
    ∃ child0 seen1 child,
      bn s typ seen = .ok (child0, seen1) ∧ seen2 = seen1 ∧
      node2.Flags = node.Flags ∧ node2.Positional = node.Positional ∧
      node2.Children = node.Children ++ [child] ∧
      (node2.DefaultCmd = node.DefaultCmd ∨ node2.DefaultCmd = some child) ∧
      child.Children = child0.Children ∧ child.Flags = child0.Flags ∧
      ¬(child.Positional ≠ [] ∧ child.Children ≠ []) := by
  unfold buildChildA at h
  cases hbn0 : bn s typ seen with
  | error e => rw [hbn0] at h; simp at h
  | ok out =>
    obtain ⟨child0, seen1⟩ := out
    rw [hbn0] at h
    simp only at h
    cases child0 with
    | mk d0 c0 dc0 =>
      rw [decorateChild_eq] at h
      simp only [Node.data_mk, Node.Children_mk, Node.DefaultCmd_mk, Node.Positional_mk] at h
      by_cases harg : tag.Arg = true
      · simp only [harg, if_true] at h
        split at h
        · simp at h
        · split at h
          · simp at h
          · simp only [Node.setArgument_mk, Node.withPositional_mk, Node.Help_mk,
              Node.setHelp_mk] at h
            split at h <;>
            · obtain ⟨he, hseen, hx⟩ := buildChildFinish_spec _ _ _ _ _ _ _ h
              subst he
              exact ⟨_, _, _, rfl, hseen, by simp, by simp, by simp, Or.inl (by simp),
                by simp, by simp, hx⟩
      · rw [Bool.not_eq_true] at harg
        simp only [harg, Bool.false_eq_true, if_false] at h
        by_cases hd : tag.Dflt = ""
        · simp only [hd, ne_eq, not_true_eq_false, if_false] at h
          obtain ⟨he, hseen, hx⟩ := buildChildFinish_spec _ _ _ _ _ _ _ h
          subst he
          exact ⟨_, _, _, rfl, hseen, by simp, by simp, by simp, Or.inl (by simp),
            by simp, by simp, hx⟩
        · simp only [hd, ne_eq, not_false_eq_true, if_true] at h
          by_cases hdc : node.DefaultCmd.isSome = true
          · simp [hdc] at h
          · rw [Bool.not_eq_true] at hdc
            simp only [hdc, Bool.false_eq_true, if_false] at h
            split at h
            · simp at h
            · obtain ⟨he, hseen, hx⟩ := buildChildFinish_spec _ _ _ _ _ _ _ h
              subst he
              exact ⟨_, _, _, rfl, hseen, by simp, by simp, by simp, Or.inr (by simp),
                by simp, by simp, hx⟩

/-- A child that passes the mixing check and has exclusive descendants is
itself exclusive. -/
theorem Node.exclAll_of (child : Node)
    (h1 : ¬(child.Positional ≠ [] ∧ child.Children ≠ []))
    (h2 : exclAllList child.Children = true) : Node.exclAll child = true := by
  cases child with
  | mk d c dc =>
    simp only [Node.Positional_mk, Node.Children_mk] at h1 h2
    rw [Node.exclAll_mk]
    rcases not_and_or.mp h1 with hp | hc
    · rw [not_not] at hp
      simp [hp, h2]
    · rw [not_not] at hc
      simp [hc, h2]

/-- Stacking a freshly registered flag under an invariant-preserving rest of
the loop. -/
theorem flagsInv_extend (fl : Flag) (seen : List String) (nf2 : List Flag)
    (h1 : ∀ x ∈ flagKeys fl, x ∉ seen) (h2 : (flagKeys fl).Nodup)
    (h3 : ∀ x ∈ flagsKeys nf2, x ∉ (flagKeys fl).reverse ++ seen)
    (h4 : (flagsKeys nf2).Nodup) :
    (∀ x ∈ flagsKeys (fl :: nf2), x ∉ seen) ∧ (flagsKeys (fl :: nf2)).Nodup ∧
      (flagsKeys nf2).reverse ++ ((flagKeys fl).reverse ++ seen) =
        (flagsKeys (fl :: nf2)).reverse ++ seen := by
  have hcons : flagsKeys (fl :: nf2) = flagKeys fl ++ flagsKeys nf2 := rfl
  refine ⟨?_, ?_, ?_⟩
  · intro x hx
    rw [hcons, List.mem_append] at hx
    rcases hx with hx | hx
    · exact h1 x hx
    · intro hmem
      exact h3 x hx (List.mem_append_right _ hmem)
  · rw [hcons, List.nodup_append]
    refine ⟨h2, h4, ?_⟩
    intro x hx hmem
    exact h3 x hmem (List.mem_append_left _ (by simpa using hx))
  · rw [hcons, List.reverse_append, List.append_assoc]

/-- Master specification of the per-entry loop: appended flags carry fresh,
pairwise distinct registration keys, the returned registration set is those
keys stacked on the input set, and subtree exclusivity is preserved —
provided the recursive `bn` restores the registration set and produces
exclusivity-respecting children. -/
theorem buildEntriesA_spec (bn : GoStruct → NodeType → List String → Except KErr (Node × List String))
    (k : Kong) (tname : String)
    (hbnseen : ∀ s typ sn out, bn s typ sn = .ok out → out.2 = sn)
    (hbnexcl : ∀ s typ sn nd sn2, bn s typ sn = .ok (nd, sn2) → exclAllList nd.Children = true) :
    ∀ (entries : List FlatEntry) (node : Node) (seen : List String)
      (node2 : Node) (seen2 : List String),
    buildEntriesA bn k tname entries node seen = .ok (node2, seen2) →
    (∃ nf, node2.Flags = node.Flags ++ nf ∧
       seen2 = (flagsKeys nf).reverse ++ seen ∧
       (∀ x ∈ flagsKeys nf, x ∉ seen) ∧ (flagsKeys nf).Nodup) ∧
    (exclAllList node.Children = true → exclAllList node2.Children = true) := by
  intro entries
  induction entries with
  | nil =>
    intro node seen node2 seen2 h
    simp only [buildEntriesA, Except.ok.injEq, Prod.mk.injEq] at h
    obtain ⟨h1, h2⟩ := h
    subst h1
    subst h2
    exact ⟨⟨[], by simp [flagsKeys], by simp [flagsKeys], by simp [flagsKeys],
      by simp [flagsKeys]⟩, fun hx => hx⟩
  | cons e rest ih =>
    intro node seen node2 seen2 h
    obtain ⟨efname, evm, enm, etag, ev⟩ := e
    cases ev with
    | scalar =>
      simp only [buildEntriesA] at h
      by_cases hig : (k.ignoreFields.any fun r => r (tname ++ "." ++ efname)) = true
      · rw [if_pos hig] at h
        exact ih node seen node2 seen2 h
      · rw [if_neg hig] at h
        split at h
        next err heq => exact absurd h (by simp)
        next node1 seen1 heq =>
          obtain ⟨hch, hdc, hcase⟩ := buildField_spec _ _ _ _ _ _ _ _ _ heq
          obtain ⟨⟨nf2, hfl2, hsn2, hfresh2, hnd2⟩, hexcl2⟩ := ih node1 seen1 node2 seen2 h
          rcases hcase with ⟨_, hfl1, hsn1, _⟩ | ⟨_, _, fl, hfl1, _, _, _, hsn1, hfr1, hnd1⟩
          · subst hsn1
            refine ⟨⟨nf2, by rw [hfl2, hfl1], hsn2, hfresh2, hnd2⟩, ?_⟩
            intro hx
            exact hexcl2 (by rw [hch]; exact hx)
          · subst hsn1
            obtain ⟨hfr, hnd, heqn⟩ := flagsInv_extend fl seen nf2 hfr1 hnd1
              (by intro x hx; exact hfresh2 x hx) hnd2
            refine ⟨⟨fl :: nf2, ?_, ?_, hfr, hnd⟩, ?_⟩
            · rw [hfl2, hfl1, List.append_assoc]
              rfl
            · rw [hsn2, heqn]
            · intro hx
              exact hexcl2 (by rw [hch]; exact hx)
    | strukt sv =>
      simp only [buildEntriesA] at h
      by_cases hig : (k.ignoreFields.any fun r => r (tname ++ "." ++ efname)) = true
      · rw [if_pos hig] at h
        exact ih node seen node2 seen2 h
      · rw [if_neg hig] at h
        split at h
        next err heq => exact absurd h (by simp)
        next node1 seen1 heq =>
          split at heq
          next hcond =>
            obtain ⟨child0, seenc, child, hbn0, hs2, hfl1, hps1, hch1, hdc1, hcc, hcf, hmix⟩ :=
              buildChildA_spec _ _ _ _ _ _ _ _ _ _ _ _ heq
            have hseq : seenc = seen := by
              have hout := hbnseen _ _ _ _ hbn0
              simpa using hout
            rw [hseq] at hs2
            subst seen1
            obtain ⟨⟨nf2, hfl2, hsn2, hfresh2, hnd2⟩, hexcl2⟩ := ih node1 seen node2 seen2 h
            refine ⟨⟨nf2, by rw [hfl2, hfl1], hsn2, hfresh2, hnd2⟩, ?_⟩
            intro hx
            apply hexcl2
            rw [hch1, exclAllList_append]
            have hcx : Node.exclAll child = true := by
              apply Node.exclAll_of child hmix
              rw [hcc]
              exact hbnexcl _ _ _ _ _ hbn0
            simp [hx, hcx]
          next hcond =>
            obtain ⟨hch, hdc, hcase⟩ := buildField_spec _ _ _ _ _ _ _ _ _ heq
            obtain ⟨⟨nf2, hfl2, hsn2, hfresh2, hnd2⟩, hexcl2⟩ := ih node1 seen1 node2 seen2 h
            rcases hcase with ⟨_, hfl1, hsn1, _⟩ | ⟨_, _, fl, hfl1, _, _, _, hsn1, hfr1, hnd1⟩
            · subst hsn1
              refine ⟨⟨nf2, by rw [hfl2, hfl1], hsn2, hfresh2, hnd2⟩, ?_⟩
              intro hx
              exact hexcl2 (by rw [hch]; exact hx)
            · subst hsn1
              obtain ⟨hfr, hnd, heqn⟩ := flagsInv_extend fl seen nf2 hfr1 hnd1
                (by intro x hx; exact hfresh2 x hx) hnd2
              refine ⟨⟨fl :: nf2, ?_, ?_, hfr, hnd⟩, ?_⟩
              · rw [hfl2, hfl1, List.append_assoc]
                rfl
              · rw [hsn2, heqn]
              · intro hx
                exact hexcl2 (by rw [hch]; exact hx)

@[simp] theorem Node.Children_withPositional (n ps) :
    (Node.withPositional n ps).Children = n.Children := by
  cases n ; rfl

@[simp] theorem Node.Positional_withPositional (n ps) :
    (Node.withPositional n ps).Positional = ps := by
  cases n ; rfl

/-- Master specification of `buildNode`: on success the registration set is
returned exactly as received (each of the node's own flag keys was registered
during the loop and removed exactly once by the closing unsee loop), the
node's own flag keys are pairwise distinct and were all absent from the
incoming registration set, every strict descendant satisfies the
children/positionals exclusivity invariant, and positionals carry their
zero-based declaration indices. -/
theorem buildNode_spec (k : Kong) : ∀ (fuel : Nat) (v : GoStruct) (typ : NodeType)
    (seen : List String) (node : Node) (seen2 : List String),
    buildNode k fuel v typ seen = .ok (node, seen2) →
    seen2 = seen ∧
    (∀ x ∈ flagsKeys node.Flags, x ∉ seen) ∧
    (flagsKeys node.Flags).Nodup ∧
    exclAllList node.Children = true ∧
    (∀ (j : Nat) (q : Value), node.Positional[j]? = some q → q.Position = j) := by
  intro fuel
  induction fuel with
  | zero =>
    intro v typ seen node seen2 h
    simp [buildNode] at h
  | succ fuel ih =>
    have hbnseen : ∀ s t sn out, buildNode k fuel s t sn = .ok out → out.2 = sn := by
      intro s t sn out hb
      obtain ⟨n1, s1⟩ := out
      exact (ih s t sn n1 s1 hb).1
    have hbnexcl : ∀ s t sn nd sn2, buildNode k fuel s t sn = .ok (nd, sn2) →
        exclAllList nd.Children = true := by
      intro s t sn nd sn2 hb
      exact (ih s t sn nd sn2 hb).2.2.2.1
    intro v typ seen node seen2 h
    simp only [buildNode] at h
    split at h
    next e heq => exact absurd h (by simp)
    next entries v2 heq =>
      split at h
      next e2 heq2 => exact absurd h (by simp)
      next node1 seen1 heq2 =>
        split at h
        next e3 heq3 => exact absurd h (by simp)
        next ps heq3 =>
          simp only [Except.ok.injEq, Prod.mk.injEq] at h
          obtain ⟨hnode, hseen2⟩ := h
          obtain ⟨⟨nf, hfl, hsn, hfresh, hnd⟩, hexcl⟩ :=
            buildEntriesA_spec (buildNode k fuel) k v.tname hbnseen hbnexcl
              entries (.mk { NType := typ } [] none) seen node1 seen1 heq2
          have hflnf : node1.Flags = nf := by
            rw [hfl]
            simp
          have hunsee : unseeFlags node1.Flags seen1 = seen := by
            rw [unseeFlags_eq_filter, hflnf, hsn, List.filter_append]
            have h1 : (flagsKeys nf).reverse.filter (fun x => decide (x ∉ flagsKeys nf)) = [] := by
              rw [List.filter_eq_nil_iff]
              intro a ha
              simp only [decide_eq_true_eq, not_not]
              exact List.mem_reverse.mp ha
            have h2 : seen.filter (fun x => decide (x ∉ flagsKeys nf)) = seen := by
              apply List.filter_eq_self.mpr
              intro a ha
              simp only [decide_eq_true_eq]
              intro hmem
              exact hfresh a hmem ha
            rw [h1, h2]
            simp
          subst hnode
          refine ⟨?_, ?_, ?_, ?_, ?_⟩
          · rw [← hseen2, hunsee]
          · rw [Node.setPositional_withPositional, hflnf]
            exact hfresh
          · rw [Node.setPositional_withPositional, hflnf]
            exact hnd
          · rw [Node.Children_withPositional]
            exact hexcl (by simp)
          · intro j q hq
            rw [Node.Positional_withPositional] at hq
            obtain ⟨hlen, hidx⟩ := checkPositionals_ok _ 0 true ps heq3
            have := hidx j
            rw [hq] at this
            cases hnp : node1.Positional[j]? with
            | none =>
              rw [hnp] at this
              exact absurd this (by simp)
            | some p =>
              rw [hnp] at this
              simp at this
              rw [this]


/-! Claim C2: children/positionals exclusivity of every node of a
successfully compiled tree. -/

/-- C2: for every node in a successfully compiled tree — the root and every
descendant — the child-node sequence and the positional-value sequence are
never both non-empty (`Node.exclAll` checks the whole tree); a schema that
would populate both on one node fails compilation with a mixing error raised
by `buildChildFinish` for child nodes and by `build` for the root, so it
never yields a tree. -/
theorem childrenPositionalsExclusive (fuel : Nat) (k : Kong) (ast : GoAny)
    (app : Application) (h : build fuel k ast = .ok app) :
    Node.exclAll app.Node = true := by
  unfold build at h
  cases ast with
  | other t => simp at h
  | ptrToStruct iv =>
    simp only at h
    split at h
    next e heq => exact absurd h (by simp)
    next nodev seenx heq =>
      split at h
      · exact absurd h (by simp)
      next hc =>
        simp only [Except.ok.injEq] at h
        subst h
        obtain ⟨_, _, _, hexcl, _⟩ := buildNode_spec k fuel iv .ApplicationNode _ nodev seenx heq
        have htop : (nodev.Positional.isEmpty || nodev.Children.isEmpty) = true := by
          cases hp : nodev.Positional.isEmpty <;> cases hcc : nodev.Children.isEmpty <;>
            simp_all
        cases nodev with
        | mk d c dc =>
          simp only [Node.Positional_mk, Node.Children_mk] at htop hexcl
          simp only [Node.withFlags_mk, Node.exclAll_mk]
          simp [htop, hexcl]

/-- Witness for C2 at a concrete schema that compiles successfully. -/
theorem childrenPositionalsExclusiveWitness :
    Node.exclAll (getApp (build 5 kEmpty (.ptrToStruct exLateRoot))).Node = true :=
  childrenPositionalsExclusive 5 kEmpty (.ptrToStruct exLateRoot)
    (getApp (build 5 kEmpty (.ptrToStruct exLateRoot))) rfl

/-! Claim C1: flag-name scoping. -/

/-- C1 (amended): for every node built by `buildNode`, the node's own flags
have pairwise distinct long-name and short-name registration keys, none of
those keys was present in the registration set when the node's construction
started (so a descendant's attempt to redeclare a long or short flag name
already registered by an ancestor on an earlier field fails compilation, as
the second conjunct shows), and the registration set is returned exactly as
received — the node's own flag names are removed from the shared set exactly
once when its construction completes, restoring visibility for
not-yet-built sibling subtrees, which may therefore reuse identical names. -/
theorem flagScopeDiscipline :
    (∀ (k : Kong) (fuel : Nat) (v : GoStruct) (typ : NodeType) (seen : List String)
        (node : Node) (seen2 : List String),
      buildNode k fuel v typ seen = .ok (node, seen2) →
      seen2 = seen ∧ (flagsKeys node.Flags).Nodup ∧
        ∀ x ∈ flagsKeys node.Flags, x ∉ seen) ∧
    (∀ (k : Kong) (node : Node) (tname : String) (e : FlatEntry) (tag : Tag)
        (name : String) (seen : List String),
      e.namedMapper = true → tag.Arg = false → seenMem seen ("--" ++ name) = true →
      buildField k node tname e tag name seen =
        .error (.duplicateFlag tname e.fname name)) := by
  constructor
  · intro k fuel v typ seen node seen2 h
    obtain ⟨h1, h2, h3, _, _⟩ := buildNode_spec k fuel v typ seen node seen2 h
    exact ⟨h1, h3, h2⟩
  · intro k node tname e tag name seen hm ha hl
    exact buildField_duplicate k node tname e tag name seen hm ha hl

/-- Counterexample to C1 as stated: a compiled tree in which an ancestor
(the root) and its descendant (child 0) both declare a flag with the long
name `port` — the root's `Port` field is declared after the `Sub` command
field, whose flags have already been removed from the registration set, so
compilation succeeds instead of failing with a duplicate-flag error. -/
theorem flagScopeCounterexample :
    isOkB (build 5 kEmpty (.ptrToStruct exLateRoot)) = true ∧
    flagNames (getApp (build 5 kEmpty (.ptrToStruct exLateRoot))).Node = ["port"] ∧
    childFlagNames (getApp (build 5 kEmpty (.ptrToStruct exLateRoot))).Node 0 =
      some ["port"] := ⟨rfl, rfl, rfl⟩

/-- Witness for C1 (amended) at concrete inputs: the discipline part applied
to a successful concrete build, and the duplicate-flag part applied to a
registration set that already contains the flag's long key. -/
theorem flagScopeDisciplineWitness :
    ((getNodeSeen (buildNode kEmpty 5 exLateRoot .ApplicationNode [])).2 = [] ∧
      (flagsKeys (getNodeSeen (buildNode kEmpty 5 exLateRoot .ApplicationNode [])).1.Flags).Nodup ∧
      ∀ x ∈ flagsKeys (getNodeSeen (buildNode kEmpty 5 exLateRoot .ApplicationNode [])).1.Flags,
        x ∉ ([] : List String)) ∧
    buildField kEmpty default "R" exEntry newEmptyTag "flg" ["--flg"] =
      .error (.duplicateFlag "R" "Flg" "flg") :=
  ⟨flagScopeDiscipline.1 kEmpty 5 exLateRoot .ApplicationNode []
      (getNodeSeen (buildNode kEmpty 5 exLateRoot .ApplicationNode [])).1
      (getNodeSeen (buildNode kEmpty 5 exLateRoot .ApplicationNode [])).2 rfl,
    flagScopeDiscipline.2 kEmpty default "R" exEntry newEmptyTag "flg" ["--flg"]
      rfl rfl rfl⟩


/-! Claim C3: positional ordering and required-policy defaults. -/

/-- C3: walking a node's positionals in declaration order with a
previous-was-required tracker initialized to `true`, the scan fails with the
required-after-optional error exactly when some positional is required while
its immediate predecessor is optional (hence a lone optional first positional
never errors); on success every positional receives its zero-based ordinal
position with all other attributes unchanged; and `buildField` makes flags
optional unless tagged required and positional values required unless tagged
optional. -/
theorem positionalOrdering :
    (∀ ps : List Value,
      (∃ e, checkPositionals 0 true ps = .error e) ↔
        ∃ j p q, ps[j]? = some p ∧ ps[j + 1]? = some q ∧
          p.Required = false ∧ q.Required = true) ∧
    (∀ ps qs : List Value, checkPositionals 0 true ps = .ok qs →
      ∀ j : Nat, qs[j]? = (ps[j]?).map fun p => { p with Position := j }) ∧
    (∀ (k : Kong) (node : Node) (tname : String) (e : FlatEntry) (tag : Tag)
        (name : String) (seen : List String) (node2 : Node) (seen2 : List String),
      buildField k node tname e tag name seen = .ok (node2, seen2) →
      (tag.Arg = true → ∃ v : Value, node2.Positional = node.Positional ++ [v] ∧
        v.Required = !tag.Optional) ∧
      (tag.Arg = false → ∃ fl : Flag, node2.Flags = node.Flags ++ [fl] ∧
        fl.Value.Required = tag.Required)) := by
  refine ⟨?_, ?_, ?_⟩
  · intro ps
    rw [checkPositionals_error ps 0 true]
    simp
  · intro ps qs h j
    have hj := (checkPositionals_ok ps 0 true qs h).2 j
    simpa [Nat.zero_add] using hj
  · intro k node tname e tag name seen node2 seen2 h
    obtain ⟨_, _, hcase⟩ := buildField_spec k node tname e tag name seen node2 seen2 h
    constructor
    · intro ha
      rcases hcase with ⟨_, _, _, v, hv, _, hr, _⟩ | ⟨hf, _⟩
      · exact ⟨v, hv, hr⟩
      · rw [ha] at hf
        exact absurd hf (by simp)
    · intro ha
      rcases hcase with ⟨ht, _⟩ | ⟨_, _, fl, hfl, _, _, hr, _, _, _⟩
      · rw [ha] at ht
        exact absurd ht (by simp)
      · exact ⟨fl, hfl, hr⟩

/-- Witness for C3 at concrete inputs: a single optional positional (no
error), its assigned position, and a concrete flag build. -/
theorem positionalOrderingWitness :
    ((∃ e, checkPositionals 0 true [exExtraFlag.Value] = .error e) ↔
      ∃ j p q, [exExtraFlag.Value][j]? = some p ∧ [exExtraFlag.Value][j + 1]? = some q ∧
        p.Required = false ∧ q.Required = true) ∧
    (∀ j : Nat, (getVals (checkPositionals 0 true [exExtraFlag.Value]))[j]? =
      ([exExtraFlag.Value][j]?).map fun p => { p with Position := j }) ∧
    ((newEmptyTag.Arg = true →
        ∃ v : Value, (getNodeSeen (buildField kEmpty default ("R") exEntry newEmptyTag
          ("flg") [])).1.Positional = (default : Node).Positional ++ [v] ∧
          v.Required = !newEmptyTag.Optional) ∧
      (newEmptyTag.Arg = false →
        ∃ fl : Flag, (getNodeSeen (buildField kEmpty default ("R") exEntry newEmptyTag
          ("flg") [])).1.Flags = (default : Node).Flags ++ [fl] ∧
          fl.Value.Required = newEmptyTag.Required)) :=
  ⟨positionalOrdering.1 [exExtraFlag.Value],
   positionalOrdering.2.1 [exExtraFlag.Value]
     (getVals (checkPositionals 0 true [exExtraFlag.Value])) rfl,
   positionalOrdering.2.2 kEmpty default ("R") exEntry newEmptyTag ("flg") []
     (getNodeSeen (buildField kEmpty default ("R") exEntry newEmptyTag ("flg") [])).1
     (getNodeSeen (buildField kEmpty default ("R") exEntry newEmptyTag ("flg") [])).2 rfl⟩


/-! Claim C9: non-settable fields are silently omitted by the flattener. -/

theorem entriesOf_flatten (fuel : Nat) (t : String) (ht : Option String) (fs : List GoField) :
    entriesOf (flattenedFields (fuel + 1) (.mk t ht fs)) =
      (flattenFieldListA (flattenedFields fuel) fs).map Prod.fst := by
  cases h : flattenFieldListA (flattenedFields fuel) fs with
  | error e => simp [flattenedFields, h, entriesOf, Except.map]
  | ok out =>
    obtain ⟨es, fs2⟩ := out
    simp [flattenedFields, h, entriesOf, Except.map]

/-- A non-anonymous, non-embed, non-ignored, non-settable field contributes
no entries and no error to one step of the field loop. -/
theorem flattenOneA_unsettable (ff : GoStruct → Except KErr (List FlatEntry × GoStruct))
    (f : GoField) (hanon : f.anonymous = false) (hembed : f.tag.Embed = false)
    (hig : f.tag.Ignored = false) (hcs : f.canSet = false) :
    ∃ f2, flattenOneA ff f = .ok ([], f2) := by
  cases f with
  | mk fname anonymous canSet vm nm tag shape =>
    simp only [GoField.anonymous] at hanon
    simp only [GoField.tag] at hembed hig
    simp only [GoField.canSet] at hcs
    subst hanon
    subst hcs
    refine ⟨.mk fname false false vm nm tag (hydrateShape tag shape), ?_⟩
    simp [flattenOneA, hig, hembed]

/-- Dropping the unsettable field does not change the produced entry list. -/
theorem flattenFieldListA_skip (ff : GoStruct → Except KErr (List FlatEntry × GoStruct))
    (pre post : List GoField) (f : GoField)
    (hanon : f.anonymous = false) (hembed : f.tag.Embed = false)
    (hig : f.tag.Ignored = false) (hcs : f.canSet = false) :
    (flattenFieldListA ff (pre ++ f :: post)).map Prod.fst =
      (flattenFieldListA ff (pre ++ post)).map Prod.fst := by
  induction pre with
  | nil =>
    obtain ⟨f2, hone⟩ := flattenOneA_unsettable ff f hanon hembed hig hcs
    simp only [List.nil_append, flattenFieldListA, hone]
    cases h : flattenFieldListA ff post with
    | error e => simp [Except.map]
    | ok out =>
      obtain ⟨es, fs2⟩ := out
      simp [Except.map]
  | cons g pre ih =>
    simp only [List.cons_append, flattenFieldListA]
    cases hone : flattenOneA ff g with
    | error e => simp [Except.map]
    | ok outg =>
      obtain ⟨es, g2⟩ := outg
      simp only
      cases h1 : flattenFieldListA ff (pre ++ f :: post) with
      | error e1 =>
        cases h2 : flattenFieldListA ff (pre ++ post) with
        | error e2 =>
          rw [h1, h2] at ih
          simp only [Except.map] at ih ⊢
          exact ih
        | ok out2 =>
          rw [h1, h2] at ih
          simp [Except.map] at ih
      | ok out1 =>
        obtain ⟨es1, fs1⟩ := out1
        cases h2 : flattenFieldListA ff (pre ++ post) with
        | error e2 =>
          rw [h1, h2] at ih
          simp [Except.map] at ih
        | ok out2 =>
          obtain ⟨es2, fs2⟩ := out2
          rw [h1, h2] at ih
          simp only [Except.map, Except.ok.injEq] at ih
          simp [Except.map, ih]

/-- C9: during flattening, a non-anonymous, non-embed field whose storage
slot is not settable (such as an unexported struct field) is silently
omitted from the flattened entry list — it produces no entry and no error —
in addition to the dropping of ignored-tagged fields. -/
theorem unsettableFieldSkipped (fuel : Nat) (t : String) (ht : Option String)
    (pre post : List GoField) (f : GoField)
    (hanon : f.anonymous = false) (hembed : f.tag.Embed = false)
    (hig : f.tag.Ignored = false) (hcs : f.canSet = false) :
    entriesOf (flattenedFields fuel (.mk t ht (pre ++ f :: post))) =
      entriesOf (flattenedFields fuel (.mk t ht (pre ++ post))) := by
  cases fuel with
  | zero => rfl
  | succ fuel =>
    rw [entriesOf_flatten, entriesOf_flatten]
    exact flattenFieldListA_skip (flattenedFields fuel) pre post f hanon hembed hig hcs

/-- Witness for C9 at a concrete schema: a settable field before and after
the unsettable one. -/
theorem unsettableFieldSkippedWitness :
    entriesOf (flattenedFields 3 (.mk ("S") none
        ([mkLeafField ("A") newEmptyTag] ++ exUnsettable :: [mkLeafField ("B") newEmptyTag]))) =
      entriesOf (flattenedFields 3 (.mk ("S") none
        ([mkLeafField ("A") newEmptyTag] ++ [mkLeafField ("B") newEmptyTag]))) :=
  unsettableFieldSkipped 3 ("S") none [mkLeafField ("A") newEmptyTag]
    [mkLeafField ("B") newEmptyTag] exUnsettable rfl rfl rfl rfl


/-! Claim C5: hydration of cmd/embed pointer fields. -/

/-- C5 (amended): the flattener hydrates every non-ignored `cmd`/`embed`
pointer field unconditionally — the field is re-pointed at a freshly
allocated zero value of its element type whether or not a reference was
already present, so the step's behaviour depends only on the pointee's type
skeleton (`zeroStruct`), never on its presence bit or stored values; for a
non-anonymous, non-embed command pointer field the updated shape is exactly
a present pointer to the zero structure, emitted as a struct entry when
settable. -/
theorem ptrHydrationAlways :
    (∀ (ff : GoStruct → Except KErr (List FlatEntry × GoStruct)) (fname : String)
        (anon cs vm nm : Bool) (tag : Tag) (e1 e2 : GoStruct) (p1 p2 : Bool),
      (tag.Cmd = true ∨ tag.Embed = true) → tag.Ignored = false →
      zeroStruct e1 = zeroStruct e2 →
      flattenOneA ff (.mk fname anon cs vm nm tag (.ptr e1 p1)) =
        flattenOneA ff (.mk fname anon cs vm nm tag (.ptr e2 p2))) ∧
    (∀ (ff : GoStruct → Except KErr (List FlatEntry × GoStruct)) (fname : String)
        (cs vm nm : Bool) (tag : Tag) (e : GoStruct) (p : Bool),
      tag.Cmd = true → tag.Ignored = false → tag.Embed = false →
      flattenOneA ff (.mk fname false cs vm nm tag (.ptr e p)) =
        .ok ((if cs then [⟨fname, vm, nm, tag, .strukt (zeroStruct e)⟩] else []),
          .mk fname false cs vm nm tag (.ptr (zeroStruct e) true))) := by
  constructor
  · intro ff fname anon cs vm nm tag e1 e2 p1 p2 hce hig hz
    have hcb : (tag.Cmd || tag.Embed) = true := by
      rcases hce with hc | hc <;> simp [hc]
    simp only [flattenOneA, hig, Bool.false_eq_true, if_false, hydrateShape, hcb, if_true, hz]
  · intro ff fname cs vm nm tag e p hc hig hembed
    have hcb : (tag.Cmd || tag.Embed) = true := by simp [hc]
    simp [flattenOneA, hig, hydrateShape, hcb, hembed, entryValOf, hc]

/-- C5 counterexample: `exHyd`'s command pointer is present and its pointee
stores the value 5; flattening succeeds yet replaces the stored value with
the freshly allocated zero, so a present reference (together with the
values stored in the structure it points to) is not left unchanged. -/
theorem ptrHydrationCounterexample :
    (shapeAt exHyd 0).bind shapePtrPresent = some true ∧
    ptrFieldLeafVal exHyd 0 0 = some 5 ∧
    isOkB (flattenedFields 5 exHyd) = true ∧
    (updatedStruct (flattenedFields 5 exHyd)).map (fun s => ptrFieldLeafVal s 0 0) =
      some (some 0) := ⟨rfl, rfl, rfl, rfl⟩

/-- Witness for C5 (amended) at concrete inputs: a present and an absent
pointer to the same element type flatten identically, and the concrete
present pointer is replaced by a fresh zero. -/
theorem ptrHydrationAlwaysWitness :
    (flattenOneA (flattenedFields 4) (.mk ("C") false true false false
        { newEmptyTag with Cmd := true } (.ptr exStored true)) =
      flattenOneA (flattenedFields 4) (.mk ("C") false true false false
        { newEmptyTag with Cmd := true } (.ptr exStored false))) ∧
    (flattenOneA (flattenedFields 4) (.mk ("C") false true false false
        { newEmptyTag with Cmd := true } (.ptr exStored true)) =
      .ok ((if true then [⟨("C"), false, false, { newEmptyTag with Cmd := true },
          .strukt (zeroStruct exStored)⟩] else []),
        .mk ("C") false true false false { newEmptyTag with Cmd := true }
          (.ptr (zeroStruct exStored) true))) :=
  ⟨ptrHydrationAlways.1 (flattenedFields 4) ("C") false true false false
      { newEmptyTag with Cmd := true } exStored exStored true false (Or.inl rfl) rfl rfl,
   ptrHydrationAlways.2 (flattenedFields 4) ("C") true false false
      { newEmptyTag with Cmd := true } exStored true rfl rfl rfl⟩


/-! Claim C7: tag composition through embedding. -/

/-- Looking a key up in a merged binding list prefers the child's bindings
and falls back to the parent's. -/
theorem lookup_cloneWith (b c : List (String × String)) (key : String) :
    lookupVar (cloneWith b c) key =
      if c.any (fun q => q.1 == key) then lookupVar c key else lookupVar b key := by
  unfold lookupVar cloneWith
  by_cases hany : (c.any fun q => q.1 == key) = true
  · rw [if_pos hany]
    obtain ⟨q, hqmem, hq⟩ := List.any_eq_true.mp hany
    have hsome : (c.find? fun p => p.1 == key).isSome := List.find?_isSome.mpr ⟨q, hqmem, hq⟩
    cases hf : c.find? fun p => p.1 == key with
    | none => rw [hf] at hsome; simp at hsome
    | some r => rw [List.find?_append, hf]; simp
  · rw [if_neg hany]
    have hnone : (c.find? fun p => p.1 == key) = none := by
      rw [List.find?_eq_none]
      intro x hx hpx
      exact hany (List.any_eq_true.mpr ⟨x, hx, hpx⟩)
    rw [List.find?_append, hnone]
    simp only [Option.none_or]
    congr 1
    induction b with
    | nil => rfl
    | cons pb b ihb =>
      rw [List.filter_cons]
      by_cases hpk : (pb.1 == key) = true
      · have hpke : pb.1 = key := by simpa using hpk
        have hkeep : (!(c.any fun q => q.1 == pb.1)) = true := by
          rw [hpke, Bool.not_eq_true']
          rw [Bool.not_eq_true] at hany
          exact hany
        rw [if_pos hkeep]
        simp only [List.find?_cons, hpk]
      · have hpkf : (pb.1 == key) = false := by
          rw [← Bool.not_eq_true]
          exact hpk
        by_cases hkeep : (!(c.any fun q => q.1 == pb.1)) = true
        · rw [if_pos hkeep]
          simp only [List.find?_cons, hpkf]
          exact ihb
        · rw [if_neg hkeep]
          simp only [List.find?_cons, hpkf]
          exact ihb

/-- Flattening a struct whose single field is embedded (anonymous or
embed-tagged) yields exactly the recursively flattened entries with the
composition rule applied to each. -/
theorem flatten_single_embed (fuel : Nat) (t : String) (ht : Option String) (fname : String)
    (anon cs vm nm : Bool) (ptag : Tag) (inner : GoStruct)
    (es : List FlatEntry) (inner2 : GoStruct)
    (hemb : anon = true ∨ ptag.Embed = true) (hig : ptag.Ignored = false)
    (hin : flattenedFields fuel inner = .ok (es, inner2)) :
    flattenedFields (fuel + 1) (.mk t ht [.mk fname anon cs vm nm ptag (.strukt inner)]) =
      .ok (es.map (composeEntry ptag),
        .mk t ht [.mk fname anon cs vm nm ptag (.strukt inner2)]) := by
  have hcb : (!anon && !ptag.Embed) = false := by
    rcases hemb with hc | hc <;> simp [hc]
  simp [flattenedFields, flattenFieldListA, flattenOneA, hydrateShape, hig, hcb, hin]

/-- Building a node over two nested prefixed embeds around a flag field
named `Host` yields a single flag whose name concatenates the prefixes in
outer-to-inner order in front of the lowercased field name. -/
theorem nested_prefix_eval (fuel : Nat) (p1 p2 : String) :
    (resultNode (buildNode kEmpty (fuel + 4) (nestedEmbeds p1 p2) .ApplicationNode [])).map
        flagNames = some [p1 ++ p2 ++ ("host")] := by
  have h1 : flattenedFields (fuel + 1) (.mk ("Inner") none [mkLeafField ("Host") newEmptyTag]) =
      .ok ([⟨("Host"), false, true, newEmptyTag, .scalar⟩],
        .mk ("Inner") none [mkLeafField ("Host") newEmptyTag]) := rfl
  have h2 := flatten_single_embed (fuel + 1) ("Mid") none ("I") false true false false
    { newEmptyTag with Embed := true, Pfx := p2 }
    (.mk ("Inner") none [mkLeafField ("Host") newEmptyTag]) _ _ (Or.inr rfl) rfl h1
  have h3 := flatten_single_embed (fuel + 2) ("Outer") none ("M") false true false false
    { newEmptyTag with Embed := true, Pfx := p1 }
    (.mk ("Mid") none [.mk ("I") false true false false
      { newEmptyTag with Embed := true, Pfx := p2 }
      (.strukt (.mk ("Inner") none [mkLeafField ("Host") newEmptyTag]))]) _ _
    (Or.inr rfl) rfl h2
  have hhost : lowerString (dashedString ("Host")) = ("host") := rfl
  have hsm : ∀ key : String, seenMem [] key = false := fun _ => rfl
  rw [show fuel + 4 = (fuel + 3) + 1 from rfl]
  simp only [buildNode, nestedEmbeds, h3, List.map_cons, List.map_nil, composeEntry, composeTag]
  simp only [buildEntriesA, buildField, buildGroupForKey, checkPositionals, hsm, hhost,
    Kong.ignoreFields, kEmpty, List.any_nil, Bool.false_eq_true, if_false, cloneWith,
    List.filter_nil, List.append_nil, Bool.not_false, resultNode, flagNames, newEmptyTag,
    noShort, mkLeafField]
  simp [seenSet, resultNode, flagNames, Node.addFlag, Node.mapData, String.append_empty,
    String.append_assoc, newEmptyTag, noShort, checkPositionals, Node.withPositional,
    Node.Positional, Node.data, Node.Flags]


/-- C7: every entry flattened out of an embedded structure has its tag
adjusted by the composition rule — the group is inherited from the embedding
field's tag only when the child's is unset, the name prefix and env prefix
become the parent's prefix concatenated in front of the child's, and the
template-variable bindings are merged over the parent's as base with child
entries taking precedence — and consequently two nested prefixed embeds
yield a flag whose name concatenates the prefixes in outer-to-inner order
(prefix `db-` plus field `host` gives flag `db-host`). -/
theorem tagComposition :
    (∀ (fuel : Nat) (t : String) (ht : Option String) (fname : String)
        (anon cs vm nm : Bool) (ptag : Tag) (inner : GoStruct)
        (es : List FlatEntry) (inner2 : GoStruct),
      (anon = true ∨ ptag.Embed = true) → ptag.Ignored = false →
      flattenedFields fuel inner = .ok (es, inner2) →
      flattenedFields (fuel + 1) (.mk t ht [.mk fname anon cs vm nm ptag (.strukt inner)]) =
        .ok (es.map (composeEntry ptag),
          .mk t ht [.mk fname anon cs vm nm ptag (.strukt inner2)])) ∧
    (∀ parent child : Tag,
      (composeTag parent child).Group =
        (if child.Group = "" then parent.Group else child.Group) ∧
      (composeTag parent child).Pfx = parent.Pfx ++ child.Pfx ∧
      (composeTag parent child).EnvPfx = parent.EnvPfx ++ child.EnvPfx ∧
      ∀ key, lookupVar (composeTag parent child).Vars key =
        (if child.Vars.any (fun q => q.1 == key) then lookupVar child.Vars key
          else lookupVar parent.Vars key)) ∧
    (∀ (fuel : Nat) (p1 p2 : String),
      (resultNode (buildNode kEmpty (fuel + 4) (nestedEmbeds p1 p2) .ApplicationNode [])).map
          flagNames = some [p1 ++ p2 ++ ("host")]) := by
  refine ⟨flatten_single_embed, ?_, nested_prefix_eval⟩
  intro parent child
  exact ⟨rfl, rfl, rfl, fun key => lookup_cloneWith parent.Vars child.Vars key⟩

/-- Witness for C7 at concrete inputs: a concrete embedded struct, concrete
tags with overlapping variable bindings, and the `db-` prefix scenario. -/
theorem tagCompositionWitness :
    (flattenedFields 3 (.mk ("W") none [.mk ("E") true true false false newEmptyTag
        (.strukt exSub)]) =
      .ok ((getFlat (flattenedFields 2 exSub)).1.map (composeEntry newEmptyTag),
        .mk ("W") none [.mk ("E") true true false false newEmptyTag
          (.strukt (getFlat (flattenedFields 2 exSub)).2)])) ∧
    ((composeTag exParentTag newEmptyTag).Group =
        (if newEmptyTag.Group = "" then exParentTag.Group else newEmptyTag.Group) ∧
      (composeTag exParentTag newEmptyTag).Pfx = exParentTag.Pfx ++ newEmptyTag.Pfx ∧
      (composeTag exParentTag newEmptyTag).EnvPfx = exParentTag.EnvPfx ++ newEmptyTag.EnvPfx ∧
      ∀ key, lookupVar (composeTag exParentTag newEmptyTag).Vars key =
        (if newEmptyTag.Vars.any (fun q => q.1 == key) then lookupVar newEmptyTag.Vars key
          else lookupVar exParentTag.Vars key)) ∧
    ((resultNode (buildNode kEmpty (0 + 4) (nestedEmbeds ("db-") ("")) .ApplicationNode [])).map
        flagNames = some [("db-") ++ ("") ++ ("host")]) :=
  ⟨tagComposition.1 2 ("W") none ("E") true true false false newEmptyTag exSub
      (getFlat (flattenedFields 2 exSub)).1 (getFlat (flattenedFields 2 exSub)).2
      (Or.inl rfl) rfl rfl,
    tagComposition.2.1 exParentTag newEmptyTag,
    tagComposition.2.2 0 ("db-") ("")⟩

/-! Claim C4: branch-argument promotion. -/

/-- C4: for a field tagged as a positional-argument branch, `buildChild`
fails unless the recursively built child node has at least one positional
value whose first element's name equals the branch's own computed name; on
success that first positional is moved out of the child's positional list
into the child's branch-argument slot, and a child without explicit help
text inherits the promoted argument's help text. -/
theorem branchArgumentPromotion (k : Kong) (fuel : Nat) (node : Node) (typ : NodeType)
    (tname : String) (s : GoStruct) (fname : String) (tag : Tag) (name : String)
    (seen : List String) (child0 : Node) (seenc : List String)
    (harg : tag.Arg = true)
    (hbn : buildNode k fuel s typ seen = .ok (child0, seenc)) :
    (child0.Positional = [] →
      buildChildA (buildNode k fuel) k node typ tname s fname tag name seen =
        .error (.branchNoPositional tname fname name)) ∧
    (∀ p ps, child0.Positional = p :: ps → p.Name ≠ name →
      buildChildA (buildNode k fuel) k node typ tname s fname tag name seen =
        .error (.branchNameMismatch tname fname name)) ∧
    (∀ p ps, child0.Positional = p :: ps → p.Name = name →
      ∀ node2 seen2,
        buildChildA (buildNode k fuel) k node typ tname s fname tag name seen =
          .ok (node2, seen2) →
        ∃ child, node2.Children = node.Children ++ [child] ∧
          child.Argument = some p ∧ child.Positional = ps ∧ child.Name = name ∧
          child.Help = (if tag.Help = "" then p.Help else tag.Help)) := by
  cases child0 with
  | mk d0 c0 dc0 =>
    refine ⟨?_, ?_, ?_⟩
    · intro hpos
      simp only [Node.Positional_mk] at hpos
      unfold buildChildA
      rw [hbn]
      simp only
      rw [decorateChild_eq]
      simp only [Node.data_mk, Node.Children_mk, Node.DefaultCmd_mk, Node.Positional_mk]
      rw [if_pos harg, hpos]
    · intro p ps hpos hname
      simp only [Node.Positional_mk] at hpos
      unfold buildChildA
      rw [hbn]
      simp only
      rw [decorateChild_eq]
      simp only [Node.data_mk, Node.Children_mk, Node.DefaultCmd_mk, Node.Positional_mk]
      rw [if_pos harg, hpos]
      simp only
      rw [if_pos hname]
      simp
    · intro p ps hpos hname node2 seen2 h
      simp only [Node.Positional_mk] at hpos
      cases node with
      | mk nd nc ndc =>
        unfold buildChildA at h
        rw [hbn] at h
        simp only at h
        rw [decorateChild_eq] at h
        simp only [Node.data_mk, Node.Children_mk, Node.DefaultCmd_mk, Node.Positional_mk] at h
        rw [if_pos harg, hpos] at h
        simp only at h
        rw [if_neg (fun hcon => hcon hname)] at h
        simp only [Node.setArgument_mk, Node.withPositional_mk, Node.Help_mk,
          Node.setHelp_mk] at h
        by_cases hh : tag.Help = ""
        · rw [if_pos hh] at h
          obtain ⟨he, hseen, hx⟩ := buildChildFinish_spec _ _ _ _ _ _ _ h
          subst he
          refine ⟨_, rfl, rfl, rfl, rfl, ?_⟩
          rw [if_pos hh]
          rfl
        · rw [if_neg hh] at h
          obtain ⟨he, hseen, hx⟩ := buildChildFinish_spec _ _ _ _ _ _ _ h
          subst he
          refine ⟨_, rfl, rfl, rfl, rfl, ?_⟩
          rw [if_neg hh]
          rfl

/-! Claim C10: ordinal positions survive promotion unchanged. -/

/-- C10: ordinal positions are assigned by `buildNode` before promotion and
never recomputed, so for every argument-branch child the promoted branch
argument carries position 0 and the positionals remaining in the child's
list carry positions starting at 1. -/
theorem promotedPositions (k : Kong) (fuel : Nat) (node : Node) (typ : NodeType)
    (tname : String) (s : GoStruct) (fname : String) (tag : Tag) (name : String)
    (seen : List String) (node2 : Node) (seen2 : List String)
    (harg : tag.Arg = true)
    (h : buildChildA (buildNode k fuel) k node typ tname s fname tag name seen =
      .ok (node2, seen2)) :
    ∃ child, node2.Children = node.Children ++ [child] ∧
      (∃ a, child.Argument = some a ∧ a.Position = 0) ∧
      (∀ (j : Nat) (q : Value), child.Positional[j]? = some q → q.Position = j + 1) := by
  obtain ⟨nd, nc, ndc⟩ := node
  unfold buildChildA at h
  cases hbn : buildNode k fuel s typ seen with
  | error e => rw [hbn] at h; simp at h
  | ok out =>
    obtain ⟨child0, seenc⟩ := out
    have hposall := (buildNode_spec k fuel s typ seen child0 seenc hbn).2.2.2.2
    rw [hbn] at h
    simp only at h
    cases child0 with
    | mk d0 c0 dc0 =>
      rw [decorateChild_eq] at h
      simp only [Node.data_mk, Node.Children_mk, Node.DefaultCmd_mk, Node.Positional_mk] at h
      rw [if_pos harg] at h
      cases hpos : d0.Positional with
      | nil => rw [hpos] at h; simp at h
      | cons p ps =>
        rw [hpos] at h
        simp only at h
        by_cases hname : p.Name = name
        swap
        · rw [if_pos hname] at h
          simp at h
        · rw [if_neg (fun hcon => hcon hname)] at h
          simp only [Node.setArgument_mk, Node.withPositional_mk, Node.Help_mk,
            Node.setHelp_mk] at h
          have hp0 : p.Position = 0 := by
            apply hposall 0 p
            simp [hpos]
          have hps : ∀ (j : Nat) (q : Value), ps[j]? = some q → q.Position = j + 1 := by
            intro j q hq
            apply hposall (j + 1) q
            simp [hpos, hq]
          split at h <;>
          · obtain ⟨he, hseen, hx⟩ := buildChildFinish_spec _ _ _ _ _ _ _ h
            subst he
            refine ⟨_, rfl, ⟨p, rfl, hp0⟩, ?_⟩
            simp only [Node.Positional_mk]
            exact hps

/-! Claim C8: default-command rules. -/

/-- C8: a node may designate at most one default child — a second
default-tagged field at the same level fails with the more-than-one-default
error — and unless the default's tag value is `withargs` a default child
with any sub-children or positionals fails with a structural error; on
success the child is recorded as the node's default command and appended. -/
theorem defaultCommandRules (k : Kong) (fuel : Nat) (node : Node) (typ : NodeType)
    (tname : String) (s : GoStruct) (fname : String) (tag : Tag) (name : String)
    (seen : List String) (child0 : Node) (seenc : List String)
    (harg : tag.Arg = false) (hd : tag.Dflt ≠ "")
    (hbn : buildNode k fuel s typ seen = .ok (child0, seenc)) :
    (node.DefaultCmd.isSome = true →
      buildChildA (buildNode k fuel) k node typ tname s fname tag name seen =
        .error (.multipleDefaults tname fname)) ∧
    (node.DefaultCmd = none → tag.Dflt ≠ ("withargs") →
      (child0.Children ≠ [] ∨ child0.Positional ≠ []) →
      buildChildA (buildNode k fuel) k node typ tname s fname tag name seen =
        .error (.defaultWithArgs tname fname)) ∧
    (∀ node2 seen2,
      buildChildA (buildNode k fuel) k node typ tname s fname tag name seen =
        .ok (node2, seen2) →
      ∃ child, node2.DefaultCmd = some child ∧
        node2.Children = node.Children ++ [child]) := by
  have hargf : ¬tag.Arg = true := by
    rw [harg]
    exact Bool.false_ne_true
  cases child0 with
  | mk d0 c0 dc0 =>
    refine ⟨?_, ?_, ?_⟩
    · intro hsome
      unfold buildChildA
      rw [hbn]
      simp only
      rw [decorateChild_eq]
      simp only [Node.data_mk, Node.Children_mk, Node.DefaultCmd_mk, Node.Positional_mk]
      rw [if_neg hargf, if_pos hd, if_pos hsome]
    · intro hnone hwa hne
      have hsome : node.DefaultCmd.isSome = false := by
        rw [hnone]
        rfl
      have hcond : (decide ¬tag.Dflt = ("withargs") && (!c0.isEmpty || !d0.Positional.isEmpty)) = true := by
        simp only [Bool.and_eq_true, decide_eq_true_eq]
        refine ⟨hwa, ?_⟩
        simp only [Node.Children_mk, Node.Positional_mk] at hne
        rcases hne with hne | hne
        · have : c0.isEmpty = false := by
            cases hc : c0.isEmpty
            · rfl
            · exact absurd (List.isEmpty_iff.mp hc) hne
          simp [this]
        · have : d0.Positional.isEmpty = false := by
            cases hc : d0.Positional.isEmpty
            · rfl
            · exact absurd (List.isEmpty_iff.mp hc) hne
          simp [this]
      unfold buildChildA
      rw [hbn]
      simp only
      rw [decorateChild_eq]
      simp only [Node.data_mk, Node.Children_mk, Node.DefaultCmd_mk, Node.Positional_mk]
      rw [if_neg hargf, if_pos hd]
      rw [if_neg ?c1]
      case c1 =>
        rw [hsome]
        exact Bool.false_ne_true
      rw [if_pos hcond]
    · intro node2 seen2 h
      obtain ⟨nd, nc, ndc⟩ := node
      unfold buildChildA at h
      rw [hbn] at h
      simp only at h
      rw [decorateChild_eq] at h
      simp only [Node.data_mk, Node.Children_mk, Node.DefaultCmd_mk, Node.Positional_mk] at h
      rw [if_neg hargf, if_pos hd] at h
      by_cases hsome : ndc.isSome = true
      · rw [if_pos hsome] at h
        simp at h
      · rw [if_neg hsome] at h
        split at h
        · simp at h
        · obtain ⟨he, hseen, hx⟩ := buildChildFinish_spec _ _ _ _ _ _ _ h
          subst he
          exact ⟨_, rfl, rfl⟩

/-! Claim C6: global-flag seeding. -/

/-- C6 (code bug): `build` seeds the registration set with each injected
global flag's bare name while `buildField` checks keys of the form
`--name`, so a schema flag whose long name equals an injected global flag's
name never collides: this concrete build succeeds and the resulting root
carries both same-named flags (the injected one prepended), where the claim
— and the intent evidenced by the `--`-prefixed keys used everywhere else —
requires a duplicate-flag compilation failure. -/
theorem globalFlagSeedingBug :
    seedExtra [exExtraFlag] [] = [("flg")] ∧
    isOkB (build 5 kExtra (.ptrToStruct exFlgRoot)) = true ∧
    flagNames (getApp (build 5 kExtra (.ptrToStruct exFlgRoot))).Node =
      [("flg"), ("flg")] := ⟨rfl, rfl, rfl⟩


/-- Witness for C4 at a concrete branch: the `thing` branch over `exNamed`
promotes the first positional (also named `thing`) into the argument slot. -/
theorem branchArgumentPromotionWitness :
    ∃ child,
      (getNodeSeen (buildChildA (buildNode kEmpty 3) kEmpty default .ArgumentNode ("R")
        exNamed ("Thing") { newEmptyTag with Arg := true } ("thing") [])).1.Children =
        (default : Node).Children ++ [child] ∧
      child.Argument = some (exNamedBuilt.1.Positional.headD exExtraFlag.Value) ∧
      child.Positional = exNamedBuilt.1.Positional.tail ∧
      child.Name = ("thing") ∧
      child.Help = (if ({ newEmptyTag with Arg := true } : Tag).Help = ""
        then (exNamedBuilt.1.Positional.headD exExtraFlag.Value).Help
        else ({ newEmptyTag with Arg := true } : Tag).Help) :=
  (branchArgumentPromotion kEmpty 3 default .ArgumentNode ("R") exNamed ("Thing")
      { newEmptyTag with Arg := true } ("thing") [] exNamedBuilt.1 exNamedBuilt.2
      rfl rfl).2.2
    (exNamedBuilt.1.Positional.headD exExtraFlag.Value) exNamedBuilt.1.Positional.tail
    rfl rfl
    (getNodeSeen (buildChildA (buildNode kEmpty 3) kEmpty default .ArgumentNode ("R")
      exNamed ("Thing") { newEmptyTag with Arg := true } ("thing") [])).1
    (getNodeSeen (buildChildA (buildNode kEmpty 3) kEmpty default .ArgumentNode ("R")
      exNamed ("Thing") { newEmptyTag with Arg := true } ("thing") [])).2
    rfl

/-- Witness for C10 at the same concrete branch: promoted argument at
position 0, remaining positionals shifted by one. -/
theorem promotedPositionsWitness :
    ∃ child,
      (getNodeSeen (buildChildA (buildNode kEmpty 3) kEmpty default .ArgumentNode ("R")
        exNamed ("Thing") { newEmptyTag with Arg := true } ("thing") [])).1.Children =
        (default : Node).Children ++ [child] ∧
      (∃ a, child.Argument = some a ∧ a.Position = 0) ∧
      (∀ (j : Nat) (q : Value), child.Positional[j]? = some q → q.Position = j + 1) :=
  promotedPositions kEmpty 3 default .ArgumentNode ("R") exNamed ("Thing")
    { newEmptyTag with Arg := true } ("thing") []
    (getNodeSeen (buildChildA (buildNode kEmpty 3) kEmpty default .ArgumentNode ("R")
      exNamed ("Thing") { newEmptyTag with Arg := true } ("thing") [])).1
    (getNodeSeen (buildChildA (buildNode kEmpty 3) kEmpty default .ArgumentNode ("R")
      exNamed ("Thing") { newEmptyTag with Arg := true } ("thing") [])).2
    rfl rfl

/-- Witness for C8 at a concrete default command: an empty default child is
recorded as the node's default command. -/
theorem defaultCommandRulesWitness :
    ∃ child,
      (getNodeSeen (buildChildA (buildNode kEmpty 3) kEmpty default .CommandNode ("R")
        exEmptyCmd ("A") { newEmptyTag with Cmd := true, Dflt := ("1") } ("a")
        [])).1.DefaultCmd = some child ∧
      (getNodeSeen (buildChildA (buildNode kEmpty 3) kEmpty default .CommandNode ("R")
        exEmptyCmd ("A") { newEmptyTag with Cmd := true, Dflt := ("1") } ("a")
        [])).1.Children = (default : Node).Children ++ [child] :=
  (defaultCommandRules kEmpty 3 default .CommandNode ("R") exEmptyCmd ("A")
      { newEmptyTag with Cmd := true, Dflt := ("1") } ("a") []
      exEmptyBuilt.1 exEmptyBuilt.2 rfl (by decide) rfl).2.2
    (getNodeSeen (buildChildA (buildNode kEmpty 3) kEmpty default .CommandNode ("R")
      exEmptyCmd ("A") { newEmptyTag with Cmd := true, Dflt := ("1") } ("a") [])).1
    (getNodeSeen (buildChildA (buildNode kEmpty 3) kEmpty default .CommandNode ("R")
      exEmptyCmd ("A") { newEmptyTag with Cmd := true, Dflt := ("1") } ("a") [])).2
    rfl

end Kong
